import Mathlib

/-
  Verification development for the Smart-Kitchen inventory ledger and
  order-fulfillment engine.

  The JavaScript/Mongoose controllers are shallowly embedded as pure Lean
  functions over an explicit kitchen state `KState`.  Quantities are `Nat`;
  the aggregate `currentStock` field is `Int` because Mongo `$inc` updates
  can drive it negative.  Calendar dates (`date`, `today`) are day numbers;
  timestamps (`now`, `createdAt`, expiry dates) are `Nat` instants.
  Databases are lists; `findById` is `List.find?` by id; `findByIdAndUpdate`
  maps over the list (a missing id is a no-op, as in Mongo).
  Each fallible controller returns its mutated state together with an
  optional error: mutations performed before a throw persist, which mirrors
  the transactionless Mongo writes of the source.
-/

/-- Status enum of `InventoryItem` (see the spec's StockItem statuses). -/
inductive ItemStatus where
  | active
  | low_stock
  | out_of_stock
  | expired
  | discontinued
deriving DecidableEq, Repr

/-- Order status state machine values (order.controller.js `validStatuses`). -/
inductive OrderStatus where
  | pending
  | confirmed
  | preparing
  | ready
  | delivered
  | cancelled
deriving DecidableEq, Repr

/-- `InventoryItem` (StockItem registry record).  The mongoose schema file is
not part of the sources; fields are taken from their uses in the
controllers.  `minThreshold` uses `0` for "unset" (JS `undefined > 0` is
false, matching `minThreshold > 0` guards). -/
structure InventoryItem where
  id : Nat
  name : String
  unit : String
  category : String
  currentStock : Int
  quantity : Int
  cost : Option Nat
  expiryDate : Option Nat
  status : ItemStatus
  minThreshold : Nat
  lastUpdatedBy : Option Nat
deriving DecidableEq, Repr

/-- `DailyInventoryEntry` (daily ledger batch), from
models/inventory/dailyInventoryEntry.model.js. -/
structure DailyInventoryEntry where
  id : Nat
  date : Nat
  inventoryItem : Nat
  quantity : Nat
  remainingQuantity : Nat
  cost : Option Nat
  expiryDate : Option Nat
  createdAt : Nat
  addedBy : Nat
deriving DecidableEq, Repr

/-- `DayStatus`, from models/inventory/dayStatus.model.js. -/
structure DayStatus where
  date : Nat
  isEnded : Bool
  endedAt : Option Nat
  endedBy : Option Nat
deriving DecidableEq, Repr

/-- One `(stockItem, perUnitQuantity, unit)` ingredient of a menu item. -/
structure MenuIngredient where
  ingredient : Nat
  quantity : Nat
  unit : String
deriving DecidableEq, Repr

/-- A menu item: a recipe over inventory ingredients. -/
structure MenuItem where
  id : Nat
  name : String
  ingredients : List MenuIngredient
deriving DecidableEq, Repr

/-- One line of an order, as persisted (`validatedItems` in the source). -/
structure OrderItem where
  menuItem : Nat
  quantity : Nat
  unitPrice : Nat
  totalPrice : Nat
deriving DecidableEq, Repr

/-- A persisted order.  The order schema file is not in the sources;
`status` starting at `pending` is modelled from the spec ("persists the
Order in `pending`"). -/
structure Order where
  id : Nat
  customerName : String
  orderType : String
  items : List OrderItem
  subtotal : Nat
  totalAmount : Nat
  status : OrderStatus
  actualDeliveryTime : Option Nat
  createdBy : Nat
  updatedBy : Option Nat
deriving DecidableEq, Repr

/-- A waste log record (models/waste/wasteLog.model.js usage sites). -/
structure WasteRecord where
  ingredient : Nat
  category : String
  quantity : Int
  unit : String
  loggedAt : Nat
deriving DecidableEq, Repr

/-- An inventory audit entry (`Inventorylog`). -/
structure InvLog where
  ingredient : Nat
  change : Int
  reason : String
  date : Nat
deriving DecidableEq, Repr

/-- A sales/analytics record created per order line. -/
structure SalesRecord where
  product : Nat
  quantitySold : Nat
  saleDate : Nat
deriving DecidableEq, Repr

/-- One requested line of an incoming order (`req.body.items` element). -/
structure ReqOrderItem where
  menuItem : Nat
  quantity : Nat
  unitPrice : Nat
deriving DecidableEq, Repr

/-- A missing-ingredient report of the availability checker. -/
structure MissingIngredient where
  ingredient : Nat
  name : String
  required : Nat
  available : Int
  unit : String
  reason : String
deriving DecidableEq, Repr

/-- Result of `checkIngredientAvailability`. -/
structure StockCheckResult where
  isAvailable : Bool
  stockStatus : String
  missingIngredients : List MissingIngredient
deriving DecidableEq, Repr

/-- The typed errors thrown as `apiError` by the controllers.
`insufficientStock` keeps the two numbers interpolated into the source's
message "Insufficient stock in daily inventory. Required: q, Available: a". -/
inductive ApiErr where
  | validation (code : Nat)
  | notFound
  | conflict
  | dayClosed
  | alreadyEnded
  | priorDayNotEnded
  | insufficientStock (required : Nat) (available : Nat)
  | dishOutOfStock (missing : List MissingIngredient)
  | cannotEdit
deriving DecidableEq, Repr

/-- The whole persistent state: every Mongo collection, plus the clock.
`today` is the midnight-truncated day number of the instant `now`. -/
structure KState where
  items : List InventoryItem
  entries : List DailyInventoryEntry
  dayStatuses : List DayStatus
  orders : List Order
  menuItems : List MenuItem
  wasteLogs : List WasteRecord
  invLogs : List InvLog
  sales : List SalesRecord
  nextId : Nat
  now : Nat
  today : Nat
deriving DecidableEq, Repr

/-- Controller result: the (possibly mutated) state and an optional thrown
error.  Mutations made before a throw are kept, as in the source. -/
abbrev OpRes := KState × Option ApiErr

/-- `InventoryItem.findById`. -/
def findItem (s : KState) (id : Nat) : Option InventoryItem :=
  s.items.find? (fun it => it.id == id)

/-- `MenuItem.findById`. -/
def findMenu (s : KState) (id : Nat) : Option MenuItem :=
  s.menuItems.find? (fun m => m.id == id)

/-- `Order.findById`. -/
def findOrder (s : KState) (id : Nat) : Option Order :=
  s.orders.find? (fun o => o.id == id)

/-- `InventoryItem.findByIdAndUpdate(id, { $inc: { currentStock: q },
lastUpdatedBy })`.  A missing id is a no-op, as in Mongo. -/
def incStockBy (id : Nat) (q : Int) (uid : Option Nat) (s : KState) : KState :=
  { s with items := s.items.map (fun it =>
      if it.id = id then
        { it with currentStock := it.currentStock + q, lastUpdatedBy := uid }
      else it) }

/-- `$inc` on both `currentStock` and the mirror `quantity` field
(addItemToToday / applyDailyIntake). -/
def incStockQtyBy (id : Nat) (q : Int) (uid : Option Nat) (s : KState) : KState :=
  { s with items := s.items.map (fun it =>
      if it.id = id then
        { it with currentStock := it.currentStock + q, quantity := it.quantity + q,
                  lastUpdatedBy := uid }
      else it) }

/-- `Inventorylog.create`. -/
def addInvLog (id : Nat) (change : Int) (reason : String) (s : KState) : KState :=
  { s with invLogs := s.invLogs ++ [{ ingredient := id, change := change,
                                      reason := reason, date := s.now }] }

/-- `Sales.create` for one order line (dayOfWeek/season bookkeeping elided). -/
def appendSales (product qty : Nat) (s : KState) : KState :=
  { s with sales := s.sales ++ [{ product := product, quantitySold := qty,
                                  saleDate := s.now }] }

/-- `DailyInventoryEntry.create` with a fresh id; `createdAt` is the mongoose
timestamp, i.e. the current instant. -/
def createEntry (date itemId q rq : Nat) (cost expiry : Option Nat) (uid : Nat)
    (s : KState) : KState :=
  { s with
    entries := s.entries ++ [{ id := s.nextId, date := date, inventoryItem := itemId,
                               quantity := q, remainingQuantity := rq, cost := cost,
                               expiryDate := expiry, createdAt := s.now, addedBy := uid }],
    nextId := s.nextId + 1 }

/-- Whether the `DayStatus` record for day `d` exists and is ended
(`dayStatus?.isEnded`). -/
def dayEnded (s : KState) (d : Nat) : Bool :=
  match s.dayStatuses.find? (fun ds => ds.date == d) with
  | some ds => ds.isEnded
  | none => false

/-- `entry.expiryDate && new Date(entry.expiryDate) < now`:  true when an
expiry date is present and strictly in the past. -/
def expiredB (now : Nat) (ed : Option Nat) : Bool :=
  match ed with
  | some d => decide (d < now)
  | none => false

/-- Aggregate stock of an item (0 when the item does not exist). -/
def stockOf (s : KState) (id : Nat) : Int :=
  match findItem s id with
  | some it => it.currentStock
  | none => 0

/-- Whether an item id is present in the registry. -/
def presentB (s : KState) (id : Nat) : Bool :=
  (findItem s id).isSome

/-
  ## Daily Ledger: FIFO-by-expiry deduction
  (dailyInventory.controller.js, `deductFromDailyInventory`)
-/

/-- The MongoDB ascending sort key of `.sort({ expiryDate: 1, createdAt: 1 })`.
In BSON comparison order, Null sorts BEFORE Date values, so entries without
an expiry date come first (rank 0), dated entries after (rank 1) ordered by
their date, with `createdAt` breaking ties. -/
def entryKey (e : DailyInventoryEntry) : Nat × Nat × Nat :=
  match e.expiryDate with
  | none => (0, 0, e.createdAt)
  | some d => (1, d, e.createdAt)

/-- Lexicographic comparison of sort keys. -/
def keyLe (p q : Nat × Nat × Nat) : Bool :=
  decide (p.1 < q.1 ∨ (p.1 = q.1 ∧
    (p.2.1 < q.2.1 ∨ (p.2.1 = q.2.1 ∧ p.2.2 ≤ q.2.2))))

/-- Comparator used by the model of the Mongo sort. -/
def entryLe (a b : DailyInventoryEntry) : Bool :=
  keyLe (entryKey a) (entryKey b)

/-- Insert an entry into a key-sorted list (stable insertion). -/
def insertEntry (e : DailyInventoryEntry) :
    List DailyInventoryEntry → List DailyInventoryEntry
  | [] => [e]
  | x :: xs => if entryLe e x then e :: x :: xs else x :: insertEntry e xs

/-- Model of the Mongo `.sort({ expiryDate: 1, createdAt: 1 })`: stable
insertion sort by `entryLe` (Mongo leaves further ties unspecified; the
stable order is one refinement of that). -/
def sortEntries : List DailyInventoryEntry → List DailyInventoryEntry
  | [] => []
  | x :: xs => insertEntry x (sortEntries xs)

/-- Membership test of the deduction query
`{ date: today, inventoryItem: itemId, remainingQuantity: { $gt: 0 } }`. -/
def candB (today itemId : Nat) (e : DailyInventoryEntry) : Bool :=
  decide (e.date = today) && decide (e.inventoryItem = itemId) &&
    decide (0 < e.remainingQuantity)

/-- The candidate entries of a deduction: exactly the `(item, today)` entries
with positive remaining quantity. -/
def candidates (s : KState) (itemId : Nat) : List DailyInventoryEntry :=
  s.entries.filter (candB s.today itemId)

/-- The `for (const entry of entries)` walk of the source: breaks once the
need is met, skips entries whose expiry is in the past, and deducts
`Math.min(entry.remainingQuantity, remainingToDeduct)` from each visited
entry.  Returns the walked entries (as saved) and the unmet remainder. -/
def walkDeduct (now : Nat) :
    List DailyInventoryEntry → Nat → List DailyInventoryEntry × Nat
  | l, 0 => (l, 0)
  | [], need => ([], need)
  | e :: rest, need =>
    if expiredB now e.expiryDate then
      let (rest', need') := walkDeduct now rest need
      (e :: rest', need')
    else
      let d := min e.remainingQuantity need
      let (rest', need') := walkDeduct now rest (need - d)
      ({ e with remainingQuantity := e.remainingQuantity - d } :: rest', need')

/-- Write the walked entries back over the stored list (each visited entry's
`entry.save()`), matching by id. -/
def applySaves (saves l : List DailyInventoryEntry) : List DailyInventoryEntry :=
  l.map (fun e =>
    match saves.find? (fun u => u.id == e.id) with
    | some u => u
    | none => e)

/-- `deductFromDailyInventory(inventoryItemId, quantity, userId)`:  sorts
today's positive-remainder entries of the item by (expiry asc — nulls first,
creation asc), walks them deducting greedily; the per-entry saves persist
even when the walk falls short, in which case an insufficient-stock error is
thrown BEFORE the aggregate `currentStock` is decremented.  On success the
aggregate is decremented by the full requested quantity. -/
def deductFromDailyInventory (itemId qty uid : Nat) (s : KState) : OpRes :=
  let sorted := sortEntries (candidates s itemId)
  let walked := walkDeduct s.now sorted qty
  let s1 := { s with entries := applySaves walked.1 s.entries }
  if 0 < walked.2 then
    (s1, some (.insufficientStock qty (qty - walked.2)))
  else
    (incStockBy itemId (-(qty : Int)) (some uid) s1, none)

/-
  Closed-form companions of the walk, used to state and prove what the
  claims say about it.
-/

/-- Sum of remaining quantity over the usable (non-expired) entries of a
list: the stock the walk can actually consume. -/
def availSum (now : Nat) (l : List DailyInventoryEntry) : Nat :=
  ((l.filter (fun e => !expiredB now e.expiryDate)).map
    (fun e => e.remainingQuantity)).sum

/-- The walk's unmet need after processing a list. -/
def needAfter (now qty : Nat) (l : List DailyInventoryEntry) : Nat :=
  qty - min qty (availSum now l)

/-- Pure description of the walk's entry updates: thread the still-needed
quantity through the list, decrementing each usable entry by
`min remainingQuantity stillNeeded`. -/
def consumeMap (now : Nat) (n : Nat) :
    List DailyInventoryEntry → List DailyInventoryEntry
  | [] => []
  | e :: l =>
    if expiredB now e.expiryDate then e :: consumeMap now n l
    else
      let d := min e.remainingQuantity n
      { e with remainingQuantity := e.remainingQuantity - d } ::
        consumeMap now (n - d) l

theorem availSum_nil (now : Nat) : availSum now [] = 0 := rfl

theorem availSum_cons (now : Nat) (e : DailyInventoryEntry)
    (l : List DailyInventoryEntry) :
    availSum now (e :: l) =
      (if expiredB now e.expiryDate then 0 else e.remainingQuantity) +
        availSum now l := by
  by_cases h : expiredB now e.expiryDate <;> simp [availSum, h]

theorem needAfter_nil (now n : Nat) : needAfter now n [] = n := by
  simp [needAfter, availSum_nil]

theorem consumeMap_zero (now : Nat) (l : List DailyInventoryEntry) :
    consumeMap now 0 l = l := by
  induction l with
  | nil => rfl
  | cons e rest ih =>
    simp only [consumeMap, Nat.min_zero, Nat.sub_zero, ih]
    split <;> rfl

theorem walkDeduct_eq (now : Nat) (l : List DailyInventoryEntry) (n : Nat) :
    walkDeduct now l n = (consumeMap now n l, needAfter now n l) := by
  induction l generalizing n with
  | nil =>
    cases n with
    | zero => simp [walkDeduct, consumeMap, needAfter_nil]
    | succ m => simp [walkDeduct, consumeMap, needAfter_nil]
  | cons e rest ih =>
    cases n with
    | zero =>
      simp [walkDeduct, consumeMap_zero, needAfter, Nat.zero_sub, Nat.min_comm]
    | succ m =>
      by_cases h : expiredB now e.expiryDate
      · simp only [walkDeduct, h, if_pos, ih]
        rw [Prod.mk.injEq]
        refine ⟨by simp [consumeMap, h], by simp [needAfter, availSum_cons, h]⟩
      · simp only [walkDeduct, h, if_neg, Bool.false_eq_true, ite_false, ih]
        rw [Prod.mk.injEq]
        refine ⟨by simp [consumeMap, h], ?_⟩
        simp only [needAfter, availSum_cons, h, if_neg, Bool.false_eq_true,
          ite_false]
        omega

theorem consumeMap_append (now n : Nat) (A B : List DailyInventoryEntry) :
    consumeMap now n (A ++ B) =
      consumeMap now n A ++ consumeMap now (needAfter now n A) B := by
  induction A generalizing n with
  | nil => simp [consumeMap, needAfter_nil]
  | cons e A ih =>
    by_cases h : expiredB now e.expiryDate
    · have hna : needAfter now n (e :: A) = needAfter now n A := by
        simp [needAfter, availSum_cons, h]
      simp only [List.cons_append, consumeMap, h, ite_true, List.append_eq,
        ih, hna]
    · have hna : needAfter now (n - min e.remainingQuantity n) A =
          needAfter now n (e :: A) := by
        simp only [needAfter, availSum_cons, h, Bool.false_eq_true, ite_false]
        omega
      simp only [List.cons_append, consumeMap, h, Bool.false_eq_true, ite_false,
        List.append_eq, ih, hna]

theorem consumeMap_ids (now n : Nat) (l : List DailyInventoryEntry) :
    (consumeMap now n l).map (fun e => e.id) = l.map (fun e => e.id) := by
  induction l generalizing n with
  | nil => rfl
  | cons e rest ih =>
    by_cases h : expiredB now e.expiryDate <;> simp [consumeMap, h, ih]

theorem entryKey_none {e : DailyInventoryEntry} (h : e.expiryDate = none) :
    entryKey e = (0, 0, e.createdAt) := by simp [entryKey, h]

theorem entryKey_some {e : DailyInventoryEntry} {d : Nat}
    (h : e.expiryDate = some d) : entryKey e = (1, d, e.createdAt) := by
  simp [entryKey, h]

theorem entryLe_total (a b : DailyInventoryEntry) :
    entryLe a b = true ∨ entryLe b a = true := by
  unfold entryLe
  rcases ha : a.expiryDate with _ | da <;> rcases hb : b.expiryDate with _ | db <;>
    simp [entryKey_none, entryKey_some, ha, hb, keyLe, decide_eq_true_eq] <;>
    omega

theorem entryLe_trans {a b c : DailyInventoryEntry}
    (hab : entryLe a b = true) (hbc : entryLe b c = true) :
    entryLe a c = true := by
  unfold entryLe at hab hbc ⊢
  rcases ha : a.expiryDate with _ | da <;> rcases hb : b.expiryDate with _ | db <;>
    rcases hc : c.expiryDate with _ | dc <;>
    simp [entryKey_none, entryKey_some, ha, hb, hc, keyLe,
      decide_eq_true_eq] at hab hbc ⊢ <;> omega

theorem mem_insertEntry {x e : DailyInventoryEntry}
    {l : List DailyInventoryEntry} :
    x ∈ insertEntry e l ↔ x = e ∨ x ∈ l := by
  induction l with
  | nil => simp [insertEntry]
  | cons y ys ih =>
    by_cases h : entryLe e y
    · simp [insertEntry, h]
    · simp only [insertEntry, h, Bool.false_eq_true, ite_false, List.mem_cons,
        ih]
      tauto

theorem insertEntry_perm (e : DailyInventoryEntry)
    (l : List DailyInventoryEntry) : (insertEntry e l).Perm (e :: l) := by
  induction l with
  | nil => simp [insertEntry]
  | cons y ys ih =>
    by_cases h : entryLe e y
    · simp [insertEntry, h]
    · simp only [insertEntry, h, Bool.false_eq_true, ite_false]
      exact (ih.cons y).trans (List.Perm.swap e y ys)

theorem sortEntries_perm (l : List DailyInventoryEntry) :
    (sortEntries l).Perm l := by
  induction l with
  | nil => simp [sortEntries]
  | cons x xs ih => exact (insertEntry_perm x (sortEntries xs)).trans (ih.cons x)

/-- Sortedness statement of the Mongo order: every entry is `entryLe` all
later entries (expiry ascending with nulls first, then creation time). -/
def sortedByKey (l : List DailyInventoryEntry) : Prop :=
  l.Pairwise (fun a b => entryLe a b = true)

theorem insertEntry_sorted {e : DailyInventoryEntry}
    {l : List DailyInventoryEntry} (h : sortedByKey l) :
    sortedByKey (insertEntry e l) := by
  unfold sortedByKey at h ⊢
  induction l with
  | nil => simp [insertEntry]
  | cons y ys ih =>
    rcases List.pairwise_cons.1 h with ⟨hy, hys⟩
    by_cases hle : entryLe e y
    · simp only [insertEntry, hle, ite_true]
      refine List.pairwise_cons.2 ⟨?_, h⟩
      intro b hb
      rcases List.mem_cons.1 hb with rfl | hb
      · exact hle
      · exact entryLe_trans hle (hy b hb)
    · have hye : entryLe y e = true :=
        (entryLe_total e y).resolve_left (by simpa using hle)
      simp only [insertEntry, hle, Bool.false_eq_true, ite_false]
      refine List.pairwise_cons.2 ⟨?_, ih hys⟩
      intro b hb
      rcases mem_insertEntry.1 hb with rfl | hb
      · exact hye
      · exact hy b hb

theorem sortEntries_sorted (l : List DailyInventoryEntry) :
    sortedByKey (sortEntries l) := by
  induction l with
  | nil => simp [sortEntries, sortedByKey]
  | cons x xs ih => exact insertEntry_sorted ih

theorem find?_eq_none_of_ids {i : Nat} {l : List DailyInventoryEntry}
    (h : ∀ u ∈ l, u.id ≠ i) : l.find? (fun u => u.id == i) = none := by
  rw [List.find?_eq_none]
  intro u hu
  simpa using h u hu

theorem find?_append_of_none {α : Type} {p : α → Bool}
    {l1 l2 : List α} (h : l1.find? p = none) :
    (l1 ++ l2).find? p = l2.find? p := by
  induction l1 with
  | nil => rfl
  | cons x xs ih =>
    rcases hx : p x with _ | _
    · rw [List.find?_cons_of_neg _ (by simp [hx])] at h
      rw [List.cons_append, List.find?_cons_of_neg _ (by simp [hx])]
      exact ih h
    · rw [List.find?_cons_of_pos _ hx] at h
      cases h

/-- `find?` after `applySaves`, on a store whose ids are distinct: the saved
version wins when present, otherwise the original is returned unchanged. -/
theorem find?_applySaves {saves l : List DailyInventoryEntry}
    (hnd : (l.map (fun e => e.id)).Nodup) {x : DailyInventoryEntry}
    (hx : x ∈ l) :
    (applySaves saves l).find? (fun u => u.id == x.id) =
      some (match saves.find? (fun u => u.id == x.id) with
            | some u => u
            | none => x) := by
  induction l with
  | nil => cases hx
  | cons a t ih =>
    rw [List.map_cons, List.nodup_cons] at hnd
    by_cases hid : a.id = x.id
    · have hxa : x = a := by
        rcases List.mem_cons.1 hx with h1 | h1
        · exact h1
        · exact absurd (hid ▸ List.mem_map.2 ⟨x, h1, rfl⟩) hnd.1
      subst hxa
      rcases hs : saves.find? (fun w => w.id == x.id) with _ | u
      · have happ2 : applySaves saves (x :: t) = x :: applySaves saves t := by
          simp [applySaves, hs]
        rw [happ2, hs]
        exact List.find?_cons_of_pos _ (by simp)
      · have hu : u.id = x.id := by simpa using List.find?_some hs
        have happ2 : applySaves saves (x :: t) = u :: applySaves saves t := by
          simp [applySaves, hs]
        rw [happ2, hs]
        exact List.find?_cons_of_pos _ (by simp [hu])
    · have hxt : x ∈ t := by
        rcases List.mem_cons.1 hx with h1 | h1
        · exact absurd (h1 ▸ rfl) hid
        · exact h1
      rcases hs : saves.find? (fun w => w.id == a.id) with _ | u
      · have happ2 : applySaves saves (a :: t) = a :: applySaves saves t := by
          simp [applySaves, hs]
        rw [happ2, List.find?_cons_of_neg _ (by simp [hid])]
        exact ih hnd.2 hxt
      · have hu : u.id = a.id := by simpa using List.find?_some hs
        have happ2 : applySaves saves (a :: t) = u :: applySaves saves t := by
          simp [applySaves, hs]
        rw [happ2, List.find?_cons_of_neg _ (by simp [hu, hid])]
        exact ih hnd.2 hxt

/-
  ## Availability Checker (utils/stockChecker.js, `checkIngredientAvailability`)
-/

/-- The loop body of `checkIngredientAvailability`, threading the
`missingIngredients` accumulator and the `hasLowStock` / `hasOutOfStock`
flags exactly as the source does. -/
def availLoop (s : KState) (mult : Nat) :
    List MenuIngredient → List MissingIngredient → Bool → Bool →
      List MissingIngredient × Bool × Bool
  | [], m, lo, ou => (m, lo, ou)
  | ing :: rest, m, lo, ou =>
    match findItem s ing.ingredient with
    | none =>
        availLoop s mult rest
          (m ++ [{ ingredient := ing.ingredient, name := "Unknown Ingredient",
                   required := ing.quantity * mult, available := 0,
                   unit := ing.unit,
                   reason := "Ingredient not found in inventory" }]) lo true
    | some it =>
      if expiredB s.now it.expiryDate || it.status == ItemStatus.expired then
        availLoop s mult rest
          (m ++ [{ ingredient := ing.ingredient, name := it.name,
                   required := ing.quantity * mult, available := 0,
                   unit := ing.unit, reason := "Ingredient expired" }]) lo true
      else
        if it.currentStock < ((ing.quantity * mult : Nat) : Int) then
          if it.currentStock = 0 then
            availLoop s mult rest
              (m ++ [{ ingredient := ing.ingredient, name := it.name,
                       required := ing.quantity * mult,
                       available := it.currentStock, unit := ing.unit,
                       reason := "Out of stock" }]) lo true
          else
            availLoop s mult rest
              (m ++ [{ ingredient := ing.ingredient, name := it.name,
                       required := ing.quantity * mult,
                       available := it.currentStock, unit := ing.unit,
                       reason := "Insufficient quantity" }]) true ou
        else
          if it.status == ItemStatus.low_stock ||
              (decide (0 < it.minThreshold) &&
                decide (it.currentStock ≤ (it.minThreshold : Int))) then
            availLoop s mult rest m true ou
          else
            availLoop s mult rest m lo ou

/-- `checkIngredientAvailability(ingredients, quantity)`: runs the loop and
classifies — `out_of_stock` when the out flag is set or any missing
ingredient was recorded, else `low_stock` when the low flag is set, else
`available`. -/
def checkIngredientAvailability (ings : List MenuIngredient) (mult : Nat)
    (s : KState) : StockCheckResult :=
  let r := availLoop s mult ings [] false false
  if r.2.2 || !r.1.isEmpty then
    { isAvailable := false, stockStatus := "out_of_stock",
      missingIngredients := r.1 }
  else if r.2.1 then
    { isAvailable := true, stockStatus := "low_stock",
      missingIngredients := r.1 }
  else
    { isAvailable := true, stockStatus := "available",
      missingIngredients := r.1 }

/-- The contribution of a single ingredient to the loop: its pushed
missing-ingredient entries and its (low, out) flag triggers.  Each loop
iteration is independent of the accumulators, so the loop factors through
this function. -/
def ingContribution (s : KState) (mult : Nat) (ing : MenuIngredient) :
    List MissingIngredient × Bool × Bool :=
  match findItem s ing.ingredient with
  | none =>
      ([{ ingredient := ing.ingredient, name := "Unknown Ingredient",
          required := ing.quantity * mult, available := 0, unit := ing.unit,
          reason := "Ingredient not found in inventory" }], false, true)
  | some it =>
    if expiredB s.now it.expiryDate || it.status == ItemStatus.expired then
      ([{ ingredient := ing.ingredient, name := it.name,
          required := ing.quantity * mult, available := 0, unit := ing.unit,
          reason := "Ingredient expired" }], false, true)
    else
      if it.currentStock < ((ing.quantity * mult : Nat) : Int) then
        if it.currentStock = 0 then
          ([{ ingredient := ing.ingredient, name := it.name,
              required := ing.quantity * mult, available := it.currentStock,
              unit := ing.unit, reason := "Out of stock" }], false, true)
        else
          ([{ ingredient := ing.ingredient, name := it.name,
              required := ing.quantity * mult, available := it.currentStock,
              unit := ing.unit, reason := "Insufficient quantity" }],
            true, false)
      else
        if it.status == ItemStatus.low_stock ||
            (decide (0 < it.minThreshold) &&
              decide (it.currentStock ≤ (it.minThreshold : Int))) then
          ([], true, false)
        else
          ([], false, false)

/-- All missing-ingredient entries pushed for a list of ingredients. -/
def missingOf (s : KState) (mult : Nat) (l : List MenuIngredient) :
    List MissingIngredient :=
  l.foldr (fun ing acc => (ingContribution s mult ing).1 ++ acc) []

/-- Whether some ingredient sets the soft low-stock flag. -/
def lowOf (s : KState) (mult : Nat) (l : List MenuIngredient) : Bool :=
  l.any (fun ing => (ingContribution s mult ing).2.1)

/-- Whether some ingredient sets the hard out-of-stock flag. -/
def outOf (s : KState) (mult : Nat) (l : List MenuIngredient) : Bool :=
  l.any (fun ing => (ingContribution s mult ing).2.2)

theorem availLoop_factor (s : KState) (mult : Nat) (l : List MenuIngredient)
    (m : List MissingIngredient) (lo ou : Bool) :
    availLoop s mult l m lo ou =
      (m ++ missingOf s mult l, lo || lowOf s mult l, ou || outOf s mult l) := by
  induction l generalizing m lo ou with
  | nil => simp [availLoop, missingOf, lowOf, outOf]
  | cons ing rest ih =>
    have hsplit : ∀ (p : List MissingIngredient × Bool × Bool),
        ingContribution s mult ing = p →
        availLoop s mult (ing :: rest) m lo ou =
          availLoop s mult rest (m ++ p.1) (lo || p.2.1) (ou || p.2.2) := by
      intro p hp
      unfold ingContribution at hp
      rcases hfind : findItem s ing.ingredient with _ | it
      · rw [hfind] at hp
        dsimp only at hp
        subst hp
        simp only [availLoop, hfind]
        simp
      · rw [hfind] at hp
        dsimp only at hp
        simp only [availLoop, hfind]
        by_cases h1 : (expiredB s.now it.expiryDate ||
            it.status == ItemStatus.expired) = true
        · rw [if_pos h1] at hp
          rw [if_pos h1]
          subst hp
          simp
        · rw [if_neg h1] at hp
          rw [if_neg h1]
          by_cases h2 : it.currentStock < ((ing.quantity * mult : Nat) : Int)
          · rw [if_pos h2] at hp
            rw [if_pos h2]
            by_cases h3 : it.currentStock = 0
            · rw [if_pos h3] at hp
              rw [if_pos h3]
              subst hp
              simp
            · rw [if_neg h3] at hp
              rw [if_neg h3]
              subst hp
              simp
          · rw [if_neg h2] at hp
            rw [if_neg h2]
            by_cases h4 : (it.status == ItemStatus.low_stock ||
                (decide (0 < it.minThreshold) &&
                  decide (it.currentStock ≤ (it.minThreshold : Int)))) = true
            · rw [if_pos h4] at hp
              rw [if_pos h4]
              subst hp
              simp
            · rw [if_neg h4] at hp
              rw [if_neg h4]
              subst hp
              simp
    rw [hsplit _ rfl, ih]
    simp [missingOf, lowOf, outOf, List.append_assoc, Bool.or_assoc]

/-- From the claim: a "soft low-stock trigger" is an ingredient whose stock
item exists, is not expired, covers the required quantity, and still flags
low stock (status `low_stock`, or a positive `minThreshold` at or above the
current stock). -/
def softTrigger (s : KState) (mult : Nat) (ing : MenuIngredient) : Bool :=
  match findItem s ing.ingredient with
  | none => false
  | some it =>
    !(expiredB s.now it.expiryDate || it.status == ItemStatus.expired) &&
    !(decide (it.currentStock < ((ing.quantity * mult : Nat) : Int))) &&
    (it.status == ItemStatus.low_stock ||
      (decide (0 < it.minThreshold) &&
        decide (it.currentStock ≤ (it.minThreshold : Int))))

theorem ingContribution_nil (s : KState) (mult : Nat) (ing : MenuIngredient)
    (h : (ingContribution s mult ing).1 = []) :
    (ingContribution s mult ing).2.2 = false ∧
      (ingContribution s mult ing).2.1 = softTrigger s mult ing := by
  unfold ingContribution at h ⊢
  unfold softTrigger
  rcases hfind : findItem s ing.ingredient with _ | it
  · rw [hfind] at h
    cases h
  · rw [hfind] at h
    dsimp only at h ⊢
    by_cases h1 : (expiredB s.now it.expiryDate ||
        it.status == ItemStatus.expired) = true
    · rw [if_pos h1] at h
      cases h
    · rw [if_neg h1] at h ⊢
      by_cases h2 : it.currentStock < ((ing.quantity * mult : Nat) : Int)
      · rw [if_pos h2] at h
        by_cases h3 : it.currentStock = 0
        · rw [if_pos h3] at h
          cases h
        · rw [if_neg h3] at h
          cases h
      · rw [if_neg h2] at h ⊢
        by_cases h4 : (it.status == ItemStatus.low_stock ||
            (decide (0 < it.minThreshold) &&
              decide (it.currentStock ≤ (it.minThreshold : Int)))) = true
        · rw [if_pos h4]
          refine ⟨rfl, ?_⟩
          rw [Bool.not_eq_true] at h1
          simp [h1, h2, h4]
          rw [Int.not_lt] at h2
          exact_mod_cast h2
        · rw [if_neg h4]
          refine ⟨rfl, ?_⟩
          rw [Bool.not_eq_true] at h1
          rw [Bool.not_eq_true] at h4
          simp [h1, h2, h4]

theorem missingOf_nil (s : KState) (mult : Nat) {l : List MenuIngredient}
    (h : missingOf s mult l = []) :
    ∀ ing ∈ l, (ingContribution s mult ing).1 = [] := by
  induction l with
  | nil => intro ing hing; cases hing
  | cons a t ih =>
    unfold missingOf at h
    rw [List.foldr_cons, List.append_eq_nil] at h
    intro ing hing
    rcases List.mem_cons.1 hing with rfl | hing
    · exact h.1
    · exact ih h.2 ing hing

theorem outOf_eq_false (s : KState) (mult : Nat) {l : List MenuIngredient}
    (h : ∀ ing ∈ l, (ingContribution s mult ing).1 = []) :
    outOf s mult l = false := by
  unfold outOf
  rw [List.any_eq_false]
  intro ing hing
  simp [(ingContribution_nil s mult ing (h ing hing)).1]

theorem lowOf_eq_any_soft (s : KState) (mult : Nat) {l : List MenuIngredient}
    (h : ∀ ing ∈ l, (ingContribution s mult ing).1 = []) :
    lowOf s mult l = l.any (softTrigger s mult) := by
  unfold lowOf
  induction l with
  | nil => rfl
  | cons a t ih =>
    rw [List.any_cons, List.any_cons,
      (ingContribution_nil s mult a (h a (List.mem_cons_self a t))).2,
      ih (fun ing hing => h ing (List.mem_cons_of_mem a hing))]

/-- Full characterization of the availability checker's classification. -/
theorem checkAvailability_spec (ings : List MenuIngredient) (mult : Nat)
    (s : KState) :
    (checkIngredientAvailability ings mult s).missingIngredients =
        missingOf s mult ings ∧
      (checkIngredientAvailability ings mult s).isAvailable =
        (missingOf s mult ings).isEmpty ∧
      (checkIngredientAvailability ings mult s).stockStatus =
        (if (missingOf s mult ings).isEmpty then
          (if ings.any (softTrigger s mult) then "low_stock" else "available")
        else "out_of_stock") := by
  unfold checkIngredientAvailability
  rw [availLoop_factor]
  rcases hm : missingOf s mult ings with _ | ⟨x, xs⟩
  · have hall := missingOf_nil s mult hm
    have hout := outOf_eq_false s mult hall
    have hlow := lowOf_eq_any_soft s mult hall
    simp only [hout, hlow, List.nil_append, Bool.false_or, Bool.or_false,
      List.isEmpty_nil, Bool.not_true, if_true]
    by_cases ha : ings.any (softTrigger s mult) = true
    · simp [ha]
    · rw [Bool.not_eq_true] at ha
      simp [ha]
  · simp

/-
  ## Order Lifecycle Manager (order.controller.js)
-/

/-- The `validStatuses.includes(status)` check of `updateOrderStatus`. -/
def parseOrderStatus : String → Option OrderStatus
  | "pending" => some OrderStatus.pending
  | "confirmed" => some OrderStatus.confirmed
  | "preparing" => some OrderStatus.preparing
  | "ready" => some OrderStatus.ready
  | "delivered" => some OrderStatus.delivered
  | "cancelled" => some OrderStatus.cancelled
  | _ => none

/-- Phase 1 of `createOrder`: per line, validate quantity ≥ 1 and a nonzero
unit price (JS `!unitPrice` also rejects 0), resolve the menu item, require
a non-empty ingredient list, and run the availability checker with
`multiplier = line quantity`.  Purely read-only; returns the validated lines
and the subtotal. -/
def validateOrderItems (s : KState) :
    List ReqOrderItem → Except ApiErr (List OrderItem × Nat)
  | [] => Except.ok ([], 0)
  | it :: rest =>
    if it.quantity < 1 then Except.error (ApiErr.validation 400)
    else if it.unitPrice = 0 then Except.error (ApiErr.validation 400)
    else
      match findMenu s it.menuItem with
      | none => Except.error ApiErr.notFound
      | some m =>
        if m.ingredients.isEmpty then Except.error (ApiErr.validation 400)
        else
          let chk := checkIngredientAvailability m.ingredients it.quantity s
          if chk.isAvailable = false then
            Except.error (ApiErr.dishOutOfStock chk.missingIngredients)
          else
            match validateOrderItems s rest with
            | Except.error e => Except.error e
            | Except.ok (v, sub) =>
              Except.ok ({ menuItem := it.menuItem, quantity := it.quantity,
                           unitPrice := it.unitPrice,
                           totalPrice := it.quantity * it.unitPrice } :: v,
                         it.quantity * it.unitPrice + sub)

/-- Phase 3 inner loop of `createOrder`: per ingredient of one line, look up
the inventory item (a missing one is skipped), re-check the aggregate stock,
deduct via the daily ledger, and append the audit entry.  A thrown apiError
(stock short, or ledger deduction failure) escapes the ingredient loop
keeping the mutations made so far; the second component reports that
escape. -/
def deductIngredientsLoop (uid lineQty : Nat) :
    List MenuIngredient → KState → KState × Bool
  | [], s => (s, false)
  | ing :: rest, s =>
    match findItem s ing.ingredient with
    | none => deductIngredientsLoop uid lineQty rest s
    | some invItem =>
      let required := ing.quantity * lineQty
      if invItem.currentStock < (required : Int) then (s, true)
      else
        match deductFromDailyInventory ing.ingredient required uid s with
        | (s', some _) => (s', true)
        | (s', none) =>
          deductIngredientsLoop uid lineQty rest
            (addInvLog ing.ingredient (-(required : Int)) "Used in order" s')

/-- Phase 3 of `createOrder`: per line, run the ingredient deduction loop;
an escaped apiError is caught at the line level (logged and swallowed), the
sales record for that line is skipped, and processing continues with the
next line.  The Boolean reports whether any line swallowed an error. -/
def processOrderItemsDeduct (uid : Nat) :
    List ReqOrderItem → KState → KState × Bool
  | [], s => (s, false)
  | it :: rest, s =>
    match findMenu s it.menuItem with
    | none => processOrderItemsDeduct uid rest s
    | some m =>
      let r :=
        if m.ingredients.isEmpty then (s, false)
        else deductIngredientsLoop uid it.quantity m.ingredients s
      if r.2 then
        let r2 := processOrderItemsDeduct uid rest r.1
        (r2.1, true)
      else
        let r2 := processOrderItemsDeduct uid rest
          (appendSales it.menuItem it.quantity r.1)
        (r2.1, r2.2)

/-- The order record persisted by `createOrder` (phase 2); the Order schema
is not among the sources — per the spec the order starts `pending` with
`subtotal = totalAmount`. -/
def mkOrder (id : Nat) (name otype : String) (v : List OrderItem)
    (sub uid : Nat) : Order :=
  { id := id, customerName := name, orderType := otype, items := v,
    subtotal := sub, totalAmount := sub, status := OrderStatus.pending,
    actualDeliveryTime := none, createdBy := uid, updatedBy := none }

/-- Phase 2 of `createOrder`: persist the validated pending order. -/
def addOrderState (name otype : String) (v : List OrderItem) (sub uid : Nat)
    (s : KState) : KState :=
  { s with
    orders := s.orders ++ [mkOrder s.nextId name otype v sub uid],
    nextId := s.nextId + 1 }

/-- `createOrder`: phase 1 validates every line (read-only, aborting with no
state change), phase 2 persists the pending order, phase 3 best-effort
deducts ingredients and writes sales records, swallowing per-line errors —
so `createOrder` never fails after the order is persisted. -/
def createOrder (name otype : String) (reqItems : List ReqOrderItem)
    (uid : Nat) (s : KState) : OpRes :=
  if name = "" || reqItems.isEmpty then (s, some (ApiErr.validation 400))
  else
    match validateOrderItems s reqItems with
    | Except.error e => (s, some e)
    | Except.ok (v, sub) =>
      ((processOrderItemsDeduct uid reqItems
        (addOrderState name otype v sub uid s)).1, none)

/-- One ingredient restoration of the cancellation compensation:
`$inc currentStock` by `perUnitQuantity × lineQuantity` (zero restores are
skipped) and log it. -/
def restoreIngStep (uid lineQty : Nat) (acc2 : KState) (ing : MenuIngredient) :
    KState :=
  let restoredQuantity : Nat := ing.quantity * lineQty
  if restoredQuantity = 0 then acc2
  else
    addInvLog ing.ingredient (restoredQuantity : Int)
      "Restored due to order cancellation"
      (incStockBy ing.ingredient (restoredQuantity : Int) (some uid) acc2)

/-- One order line of the cancellation compensation: resolve the menu item
(skipping unresolvable ones) and restore each of its ingredients. -/
def restoreLineStep (uid : Nat) (acc : KState) (oi : OrderItem) : KState :=
  match findMenu acc oi.menuItem with
  | none => acc
  | some m => m.ingredients.foldl (restoreIngStep uid oi.quantity) acc

/-- The cancellation compensation loop of `updateOrderStatus`. -/
def restoreOrderStock (ord : Order) (uid : Nat) (s : KState) : KState :=
  ord.items.foldl (restoreLineStep uid) s

/-- The `findByIdAndUpdate` of `updateOrderStatus`: sets the status, the
updater, and stamps `actualDeliveryTime` when moving to `delivered`. -/
def setOrderStatus (id : Nat) (st : OrderStatus) (uid : Nat) (s : KState) :
    KState :=
  { s with orders := s.orders.map (fun o =>
      if o.id = id then
        { o with status := st, updatedBy := some uid,
                 actualDeliveryTime :=
                   if st = OrderStatus.delivered then some s.now
                   else o.actualDeliveryTime }
      else o) }

/-- `updateOrderStatus(id, status)`: rejects an unknown target status and a
missing order; restores inventory when moving into `cancelled` from a
non-cancelled state; then updates the order.  NOTE the source performs no
check on the PREVIOUS status — a `delivered` or `cancelled` order can be
moved to any valid status. -/
def updateOrderStatus (id : Nat) (statusStr : String) (uid : Nat)
    (s : KState) : OpRes :=
  match parseOrderStatus statusStr with
  | none => (s, some (ApiErr.validation 400))
  | some st =>
    match findOrder s id with
    | none => (s, some ApiErr.notFound)
    | some ord =>
      let s1 := if st = OrderStatus.cancelled ∧ ord.status ≠ OrderStatus.cancelled
                then restoreOrderStock ord uid s else s
      (setOrderStatus id st uid s1, none)

/-- The restore loop of `updateOrder` (order edit): `$inc` back every old
line's ingredients, without audit entries and without the zero-skip. -/
def restoreOldOrderStock (ord : Order) (uid : Nat) (s : KState) : KState :=
  ord.items.foldl (fun acc oi =>
    match findMenu acc oi.menuItem with
    | none => acc
    | some m =>
      m.ingredients.foldl (fun acc2 ing =>
        incStockBy ing.ingredient ((ing.quantity * oi.quantity : Nat) : Int)
          (some uid) acc2) acc) s

/-- Per-ingredient deduction of `updateOrder`'s new lines: a ledger error is
rethrown (it escapes the whole edit, keeping prior mutations). -/
def editDeductLoop (uid lineQty : Nat) :
    List MenuIngredient → KState → KState × Option ApiErr
  | [], s => (s, none)
  | ing :: rest, s =>
    match deductFromDailyInventory ing.ingredient (ing.quantity * lineQty) uid s with
    | (s', some e) => (s', some e)
    | (s', none) => editDeductLoop uid lineQty rest s'

/-- `updateOrder`'s validate-and-deduct loop over the new lines: per line,
resolve the menu item, check availability against the CURRENT (already
mutated) state, then deduct each ingredient immediately. -/
def editItemsLoop (uid : Nat) :
    List ReqOrderItem → KState → KState × Except ApiErr (List OrderItem × Nat)
  | [], s => (s, Except.ok ([], 0))
  | it :: rest, s =>
    match findMenu s it.menuItem with
    | none => (s, Except.error ApiErr.notFound)
    | some m =>
      let chk := checkIngredientAvailability m.ingredients it.quantity s
      if chk.isAvailable = false then
        (s, Except.error (ApiErr.dishOutOfStock chk.missingIngredients))
      else
        match editDeductLoop uid it.quantity m.ingredients s with
        | (s', some e) => (s', Except.error e)
        | (s', none) =>
          match editItemsLoop uid rest s' with
          | (s'', Except.error e) => (s'', Except.error e)
          | (s'', Except.ok (v, sub)) =>
            (s'', Except.ok ({ menuItem := it.menuItem, quantity := it.quantity,
                               unitPrice := it.unitPrice,
                               totalPrice := it.quantity * it.unitPrice } :: v,
                             it.quantity * it.unitPrice + sub))

/-- The order update write of `updateOrder` when lines are replaced. -/
def setOrderItems (id : Nat) (v : List OrderItem) (sub uid : Nat)
    (s : KState) : KState :=
  { s with orders := s.orders.map (fun o =>
      if o.id = id then
        { o with items := v, subtotal := sub, totalAmount := sub,
                 updatedBy := some uid }
      else o) }

/-- `updateOrder` (order edit): refuses to edit an order already
`delivered` or `cancelled`; when new lines are supplied it first restores
all old lines' stock, then validates and deducts the new lines (failures
here keep the restore and any partial deductions — the known non-atomic
edit risk); otherwise only bookkeeping fields change. -/
def updateOrder (id : Nat) (newItems : Option (List ReqOrderItem)) (uid : Nat)
    (s : KState) : OpRes :=
  match findOrder s id with
  | none => (s, some ApiErr.notFound)
  | some ord =>
    if ord.status = OrderStatus.delivered ∨ ord.status = OrderStatus.cancelled
    then (s, some ApiErr.cannotEdit)
    else
      match newItems with
      | none =>
        ({ s with orders := s.orders.map (fun o =>
            if o.id = id then { o with updatedBy := some uid } else o) }, none)
      | some [] =>
        ({ s with orders := s.orders.map (fun o =>
            if o.id = id then { o with updatedBy := some uid } else o) }, none)
      | some items =>
        let s1 := restoreOldOrderStock ord uid s
        match editItemsLoop uid items s1 with
        | (s2, Except.error e) => (s2, some e)
        | (s2, Except.ok (v, sub)) => (setOrderItems id v sub uid s2, none)

/-
  ## Day Boundary Manager & intake (dailyInventory.controller.js),
  ## Expiry Reconciliation (utils/expiredItemsHandler.js)
-/

/-- `endDay`'s status write: update the existing `DayStatus` record or
create one, marked ended with closer and timestamp. -/
def setDayEnded (d uid : Nat) (s : KState) : KState :=
  if s.dayStatuses.any (fun ds => ds.date == d) then
    { s with dayStatuses := s.dayStatuses.map (fun ds =>
        if ds.date = d then
          { ds with isEnded := true, endedAt := some s.now, endedBy := some uid }
        else ds) }
  else
    { s with dayStatuses := s.dayStatuses ++
        [{ date := d, isEnded := true, endedAt := some s.now,
           endedBy := some uid }] }

/-- `endDay`: fails when today is already ended, else marks it ended. -/
def endDay (uid : Nat) (s : KState) : OpRes :=
  if dayEnded s s.today then (s, some ApiErr.alreadyEnded)
  else (setDayEnded s.today uid s, none)

/-- `addItemToToday`: refuses on an ended day, requires a positive quantity
and an existing item; creates today's ledger entry (with
`remainingQuantity = quantity`) and `$inc`s the item's aggregate stock. -/
def addItemToToday (itemId qty : Nat) (cost expiry : Option Nat) (uid : Nat)
    (s : KState) : OpRes :=
  if dayEnded s s.today then (s, some ApiErr.dayClosed)
  else if qty = 0 then (s, some (ApiErr.validation 400))
  else
    match findItem s itemId with
    | none => (s, some ApiErr.notFound)
    | some _ =>
      (incStockQtyBy itemId (qty : Int) (some uid)
        (createEntry s.today itemId qty qty cost expiry uid s), none)

/-- `startNewDay`: fails with AlreadyEnded when today is already ended,
then with PriorDayNotEnded when yesterday is not ended; otherwise copies
every yesterday entry with positive remainder, skipping those whose expiry
is in the past, into a fresh today entry with
`quantity = remainingQuantity` and the same cost/expiry.  StockItems are
never touched. -/
def startNewDay (uid : Nat) (s : KState) : OpRes :=
  let yesterday := s.today - 1
  if dayEnded s s.today then (s, some ApiErr.alreadyEnded)
  else if !dayEnded s yesterday then (s, some ApiErr.priorDayNotEnded)
  else
    let ys := s.entries.filter (fun e =>
      decide (e.date = yesterday) && decide (0 < e.remainingQuantity))
    (ys.foldl (fun acc e =>
        if expiredB acc.now e.expiryDate then acc
        else
          createEntry acc.today e.inventoryItem e.remainingQuantity
            e.remainingQuantity e.cost e.expiryDate uid acc) s, none)

/-- `applyDailyIntake`: bulk stock addition; entries with a zero quantity or
an unknown item are skipped, the rest `$inc` stock and append an audit
entry. -/
def applyDailyIntake (intakeEntries : List (Nat × Nat × String)) (uid : Nat)
    (s : KState) : OpRes :=
  if intakeEntries.isEmpty then (s, some (ApiErr.validation 400))
  else
    (intakeEntries.foldl (fun acc e =>
      if e.2.1 = 0 then acc
      else if presentB acc e.1 then
        addInvLog e.1 (e.2.1 : Int) e.2.2
          (incStockQtyBy e.1 (e.2.1 : Int) (some uid) acc)
      else acc) s, none)

/-- Modelled from the spec: the InventoryItem mongoose schema file is not
among the sources, so the defaults of a newly registered StockItem are taken
from the spec — `status` starts `active` and the aggregate `currentStock`
starts at 0 (stock enters through the intake operations).  The validations
mirror `addInventoryItem` in the inventory controller: name and category
required, and a duplicate (name, category) pair is a conflict. -/
def addInventoryItem (name unit category : String) (qty : Nat)
    (expiry cost : Option Nat) (minThreshold uid : Nat) (s : KState) : OpRes :=
  if name = "" || category = "" then (s, some (ApiErr.validation 400))
  else if s.items.any (fun it => it.name == name && it.category == category)
  then (s, some ApiErr.conflict)
  else
    ({ s with
        items := s.items ++
          [{ id := s.nextId, name := name, unit := unit, category := category,
             currentStock := 0, quantity := (qty : Int), cost := cost,
             expiryDate := expiry, status := ItemStatus.active,
             minThreshold := minThreshold, lastUpdatedBy := none }],
        nextId := s.nextId + 1 }, none)

/-- The selection of `processExpiredItems`:
`{ expiryDate: { $lt: now }, currentStock: { $gt: 0 },
status: { $ne: 'discontinued' } }` (a null expiry never matches `$lt`). -/
def expiredSel (now : Nat) (it : InventoryItem) : Bool :=
  expiredB now it.expiryDate && decide (0 < it.currentStock) &&
    !(it.status == ItemStatus.discontinued)

/-- The per-item write of `processExpiredItems`: zero both stock fields and
mark the item expired. -/
def setItemExpiredZero (id : Nat) (uid : Option Nat) (s : KState) : KState :=
  { s with items := s.items.map (fun it =>
      if it.id = id then
        { it with currentStock := 0, quantity := 0,
                  status := ItemStatus.expired, lastUpdatedBy := uid }
      else it) }

/-- The waste cost booked for one expired item:
`item.cost ? currentStock * item.cost : 0` (a JS-falsy zero cost also
yields 0, which equals `currentStock * 0`). -/
def wasteCostOf (it : InventoryItem) : Int :=
  match it.cost with
  | some c => it.currentStock * (c : Int)
  | none => 0

/-- The loop body of `processExpiredItems` for one selected item: create
the waste log (quantity = the item's `currentStock`), the negative audit
entry, zero the item and mark it expired, and accumulate count and cost. -/
def expireStep (uid : Option Nat) (acc : KState × Nat × Int)
    (it : InventoryItem) : KState × Nat × Int :=
  let st1 := { acc.1 with wasteLogs := acc.1.wasteLogs ++
    [{ ingredient := it.id, category := "expired",
       quantity := it.currentStock, unit := it.unit,
       loggedAt := acc.1.now }] }
  let st2 := addInvLog it.id (-it.currentStock)
    "Item expired - moved to waste" st1
  let st3 := setItemExpiredZero it.id uid st2
  (st3, acc.2.1 + 1, acc.2.2 + wasteCostOf it)

/-- `processExpiredItems` (the expiry reconciliation sweep): runs
`expireStep` over every item matching `expiredSel` and returns the final
state with the processed count and total waste cost. -/
def processExpiredItems (uid : Option Nat) (s : KState) : KState × Nat × Int :=
  (s.items.filter (expiredSel s.now)).foldl (expireStep uid) (s, 0, 0)

/-- `checkExpiredItems`: `updateMany` flipping `status` to `expired` for
items with a past expiry — WITHOUT touching `currentStock`.  The source
filter `{ status: { $ne: 'expired', $ne: 'discontinued' } }` is a JS object
literal with a duplicate key, so only `$ne: 'discontinued'` survives. -/
def checkExpiredItems (s : KState) : KState :=
  { s with items := s.items.map (fun it =>
      if expiredB s.now it.expiryDate && !(it.status == ItemStatus.discontinued)
      then { it with status := ItemStatus.expired }
      else it) }

/-
  ## Reachability: the system's operations as a step relation
-/

/-- One step of the system: any controller invocation with any arguments
(keeping the state it leaves behind, error or not, since partial mutations
persist), or the passage of time (`now` advances, `today` follows). -/
inductive Step : KState → KState → Prop
  | tick (s : KState) (t d : Nat) (h1 : s.now ≤ t) (h2 : s.today ≤ d) :
      Step s { s with now := t, today := d }
  | addItem (s : KState) (name unit category : String) (qty : Nat)
      (expiry cost : Option Nat) (minThreshold uid : Nat) :
      Step s (addInventoryItem name unit category qty expiry cost minThreshold uid s).1
  | addToday (s : KState) (itemId qty : Nat) (cost expiry : Option Nat)
      (uid : Nat) : Step s (addItemToToday itemId qty cost expiry uid s).1
  | intake (s : KState) (intakeEntries : List (Nat × Nat × String)) (uid : Nat) :
      Step s (applyDailyIntake intakeEntries uid s).1
  | deduct (s : KState) (itemId qty uid : Nat) :
      Step s (deductFromDailyInventory itemId qty uid s).1
  | order (s : KState) (name otype : String) (req : List ReqOrderItem)
      (uid : Nat) : Step s (createOrder name otype req uid s).1
  | orderStatus (s : KState) (id : Nat) (st : String) (uid : Nat) :
      Step s (updateOrderStatus id st uid s).1
  | orderEdit (s : KState) (id : Nat) (items : Option (List ReqOrderItem))
      (uid : Nat) : Step s (updateOrder id items uid s).1
  | dayEnd (s : KState) (uid : Nat) : Step s (endDay uid s).1
  | dayStart (s : KState) (uid : Nat) : Step s (startNewDay uid s).1
  | sweep (s : KState) (uid : Option Nat) : Step s (processExpiredItems uid s).1
  | mark (s : KState) : Step s (checkExpiredItems s)

/-- The empty initial state. -/
def initState : KState :=
  { items := [], entries := [], dayStatuses := [], orders := [],
    menuItems := [], wasteLogs := [], invLogs := [], sales := [],
    nextId := 1, now := 0, today := 0 }

/-- A state is reachable when a sequence of system steps produces it from
the empty initial state. -/
def Reachable (s : KState) : Prop := Relation.ReflTransGen Step initState s

/-
  ## Characterization lemmas for the ledger deduction
-/

theorem availSum_perm (now : Nat) {l1 l2 : List DailyInventoryEntry}
    (h : l1.Perm l2) : availSum now l1 = availSum now l2 := by
  unfold availSum
  exact ((h.filter _).map _).sum_eq

theorem availSum_append (now : Nat) (A B : List DailyInventoryEntry) :
    availSum now (A ++ B) = availSum now A + availSum now B := by
  unfold availSum
  rw [List.filter_append, List.map_append, List.sum_append]

theorem entries_ids_nodup_candidates {s : KState} (itemId : Nat)
    (hwf : (s.entries.map (fun e => e.id)).Nodup) :
    ((candidates s itemId).map (fun e => e.id)).Nodup :=
  hwf.sublist ((List.filter_sublist s.entries).map (fun e => e.id))

theorem sorted_ids_nodup {s : KState} (itemId : Nat)
    (hwf : (s.entries.map (fun e => e.id)).Nodup) :
    ((sortEntries (candidates s itemId)).map (fun e => e.id)).Nodup :=
  (((sortEntries_perm (candidates s itemId)).map (fun e => e.id)).nodup_iff).2
    (entries_ids_nodup_candidates itemId hwf)

theorem eq_of_mem_of_id_eq {l : List DailyInventoryEntry}
    (h : (l.map (fun e => e.id)).Nodup) {a b : DailyInventoryEntry}
    (ha : a ∈ l) (hb : b ∈ l) (hid : a.id = b.id) : a = b := by
  induction l with
  | nil => cases ha
  | cons x t ih =>
    rw [List.map_cons, List.nodup_cons] at h
    rcases List.mem_cons.1 ha with rfl | ha' <;>
      rcases List.mem_cons.1 hb with rfl | hb'
    · rfl
    · exact absurd (hid ▸ List.mem_map.2 ⟨b, hb', rfl⟩) h.1
    · exact absurd (hid ▸ List.mem_map.2 ⟨a, ha', rfl⟩) h.1
    · exact ih h.2 ha' hb'

/-- Both branches of the deduction leave the saved walk results in the
entry store. -/
theorem deduct_entries (itemId qty uid : Nat) (s : KState) :
    (deductFromDailyInventory itemId qty uid s).1.entries =
      applySaves (consumeMap s.now qty (sortEntries (candidates s itemId)))
        s.entries := by
  unfold deductFromDailyInventory
  simp only [walkDeduct_eq]
  by_cases h : 0 < needAfter s.now qty (sortEntries (candidates s itemId))
  · rw [if_pos h]
  · rw [if_neg h]
    rfl

/-- The deduction never touches entries outside the candidate set. -/
theorem deduct_noncandidate {s : KState} (itemId qty uid : Nat)
    (hwf : (s.entries.map (fun e => e.id)).Nodup) {x : DailyInventoryEntry}
    (hx : x ∈ s.entries) (hc : candB s.today itemId x = false) :
    (deductFromDailyInventory itemId qty uid s).1.entries.find?
      (fun u => u.id == x.id) = some x := by
  rw [deduct_entries]
  rw [find?_applySaves hwf hx]
  have hnone : (consumeMap s.now qty
      (sortEntries (candidates s itemId))).find? (fun u => u.id == x.id) =
      none := by
    apply find?_eq_none_of_ids
    intro u hu
    intro hcontra
    have hu' : u.id ∈ (consumeMap s.now qty
        (sortEntries (candidates s itemId))).map (fun e => e.id) :=
      List.mem_map.2 ⟨u, hu, rfl⟩
    rw [consumeMap_ids] at hu'
    rcases List.mem_map.1 hu' with ⟨c, hc1, hc2⟩
    have hcand : c ∈ candidates s itemId :=
      (sortEntries_perm (candidates s itemId)).subset hc1
    have hce : c ∈ s.entries := (List.mem_filter.1 hcand).1
    have hcb : candB s.today itemId c = true := (List.mem_filter.1 hcand).2
    have : c = x := eq_of_mem_of_id_eq hwf hce hx (by rw [hc2, hcontra])
    rw [this] at hcb
    rw [hcb] at hc
    cases hc
  rw [hnone]

/-- Splitting the sorted candidate walk at one entry: how the deduction
updates that entry's remaining quantity — an expired entry is skipped
untouched, a usable one is decremented by
`min remainingQuantity stillNeeded`, where the still-needed amount is the
requested quantity minus what the usable entries before it could supply. -/
theorem deduct_split_find {s : KState} (itemId qty uid : Nat)
    (hwf : (s.entries.map (fun e => e.id)).Nodup)
    {L1 L2 : List DailyInventoryEntry} {x : DailyInventoryEntry}
    (hsplit : sortEntries (candidates s itemId) = L1 ++ x :: L2) :
    (deductFromDailyInventory itemId qty uid s).1.entries.find?
        (fun u => u.id == x.id) =
      some (if expiredB s.now x.expiryDate then x
            else { x with remainingQuantity := (x.remainingQuantity -
              min x.remainingQuantity (needAfter s.now qty L1)) }) := by
  have hxs : x ∈ sortEntries (candidates s itemId) := by
    rw [hsplit]
    exact List.mem_append.2 (Or.inr (List.mem_cons_self x L2))
  have hxc : x ∈ candidates s itemId :=
    (sortEntries_perm (candidates s itemId)).subset hxs
  have hxe : x ∈ s.entries := (List.mem_filter.1 hxc).1
  have hnds : ((sortEntries (candidates s itemId)).map (fun e => e.id)).Nodup :=
    sorted_ids_nodup itemId hwf
  rw [hsplit, List.map_append, List.map_cons] at hnds
  have hxnotL1 : ∀ u ∈ L1, u.id ≠ x.id := by
    intro u hu hcontra
    have h1 : x.id ∈ L1.map (fun e => e.id) := List.mem_map.2 ⟨u, hu, hcontra⟩
    exact (List.nodup_append.1 hnds).2.2 h1 (List.mem_cons_self x.id _)
  have hL1none : (consumeMap s.now qty L1).find? (fun u => u.id == x.id) =
      none := by
    apply find?_eq_none_of_ids
    intro u hu hcontra
    have hu' : u.id ∈ (consumeMap s.now qty L1).map (fun e => e.id) :=
      List.mem_map.2 ⟨u, hu, rfl⟩
    rw [consumeMap_ids] at hu'
    rcases List.mem_map.1 hu' with ⟨c, hc1, hc2⟩
    exact hxnotL1 c hc1 (hc2.trans hcontra)
  have hsaves : (consumeMap s.now qty
      (sortEntries (candidates s itemId))).find? (fun u => u.id == x.id) =
      some (if expiredB s.now x.expiryDate then x
            else { x with remainingQuantity := (x.remainingQuantity -
              min x.remainingQuantity (needAfter s.now qty L1)) }) := by
    rw [hsplit, consumeMap_append, find?_append_of_none hL1none]
    by_cases hx : expiredB s.now x.expiryDate
    · rw [if_pos hx]
      rw [consumeMap]
      rw [if_pos hx]
      exact List.find?_cons_of_pos _ (by simp)
    · rw [if_neg hx]
      rw [consumeMap]
      rw [if_neg hx]
      exact List.find?_cons_of_pos _ (by simp)
  rw [deduct_entries, find?_applySaves hwf hxe, hsaves]

/-- On a shortfall, the deduction throws the insufficient-stock error
carrying the requested quantity and the total usable (non-expired) remaining
quantity of the candidate entries; the aggregate stock registry is left
untouched. -/
theorem deduct_insufficient_eq (s : KState) (itemId qty uid : Nat)
    (hlt : availSum s.now (candidates s itemId) < qty) :
    (deductFromDailyInventory itemId qty uid s).2 =
        some (ApiErr.insufficientStock qty
          (availSum s.now (candidates s itemId))) ∧
      (deductFromDailyInventory itemId qty uid s).1.items = s.items := by
  have hperm : availSum s.now (sortEntries (candidates s itemId)) =
      availSum s.now (candidates s itemId) :=
    availSum_perm s.now (sortEntries_perm (candidates s itemId))
  have hneed : needAfter s.now qty (sortEntries (candidates s itemId)) =
      qty - availSum s.now (candidates s itemId) := by
    unfold needAfter
    rw [hperm]
    omega
  have hpos : 0 < needAfter s.now qty (sortEntries (candidates s itemId)) := by
    omega
  unfold deductFromDailyInventory
  simp only [walkDeduct_eq]
  rw [if_pos hpos, hneed]
  constructor
  · have : qty - (qty - availSum s.now (candidates s itemId)) =
        availSum s.now (candidates s itemId) := by omega
    rw [this]
  · rfl

/-- On success the deduction reports no error. -/
theorem deduct_success_iff (s : KState) (itemId qty uid : Nat) :
    (deductFromDailyInventory itemId qty uid s).2 = none ↔
      qty ≤ availSum s.now (candidates s itemId) := by
  have hperm : availSum s.now (sortEntries (candidates s itemId)) =
      availSum s.now (candidates s itemId) :=
    availSum_perm s.now (sortEntries_perm (candidates s itemId))
  unfold deductFromDailyInventory
  simp only [walkDeduct_eq]
  by_cases h : 0 < needAfter s.now qty (sortEntries (candidates s itemId))
  · rw [if_pos h]
    unfold needAfter at h
    rw [hperm] at h
    simp only
    constructor
    · intro hc
      cases hc
    · intro hc
      omega
  · rw [if_neg h]
    unfold needAfter at h
    rw [hperm] at h
    simp only
    constructor
    · intro _
      omega
    · intro _
      trivial

/-
  ## Registry lookup infrastructure (find-by-id through item map updates)
-/

theorem findItem_mapItems (s : KState) (f : InventoryItem → InventoryItem)
    (hf : ∀ it, (f it).id = it.id) (id : Nat) :
    findItem { s with items := s.items.map f } id = (findItem s id).map f := by
  show (s.items.map f).find? (fun it => it.id == id) = _
  rw [List.find?_map]
  have : ((fun it => it.id == id) ∘ f) = (fun it => it.id == id) := by
    funext it
    simp [hf]
  rw [this]
  rfl

theorem stockOf_incStockBy (i : Nat) (q : Int) (uid : Option Nat) (s : KState)
    (id : Nat) :
    stockOf (incStockBy i q uid s) id =
      stockOf s id + (if id = i ∧ presentB s i then q else 0) := by
  unfold stockOf incStockBy
  rw [findItem_mapItems _ _ (by intro it; split <;> rfl)]
  rcases hfind : findItem s id with _ | it
  · simp only [Option.map_none']
    by_cases hid : id = i
    · subst hid
      simp [presentB, hfind]
    · simp [hid]
  · have hit : it.id = id := by simpa using List.find?_some hfind
    simp only [Option.map_some']
    by_cases hid : it.id = i
    · rw [if_pos hid]
      have hidq : id = i := by rw [← hit, hid]
      have hpres : presentB s i = true := by
        unfold presentB
        rw [← hidq, hfind]
        rfl
      simp [hidq, hpres]
    · rw [if_neg hid]
      have hnc : ¬ (id = i ∧ presentB s i = true) := fun hc => hid (hit.trans hc.1)
      simp [hnc]

theorem presentB_incStockBy (i : Nat) (q : Int) (uid : Option Nat)
    (s : KState) (id : Nat) :
    presentB (incStockBy i q uid s) id = presentB s id := by
  unfold presentB incStockBy
  rw [findItem_mapItems _ _ (by intro it; split <;> rfl)]
  rcases findItem s id with _ | it <;> rfl

theorem menuItems_incStockBy (i : Nat) (q : Int) (uid : Option Nat)
    (s : KState) : (incStockBy i q uid s).menuItems = s.menuItems := rfl

/-
  ## Day roll-forward characterization
-/

/-- The fresh entries `startNewDay` creates for a list of carryable
yesterday entries, given the first fresh id: each carries
`quantity = remainingQuantity` and the same cost/expiry into a today
entry. -/
def carryFrom (today0 now0 uid : Nat) :
    Nat → List DailyInventoryEntry → List DailyInventoryEntry
  | _, [] => []
  | nid, e :: rest =>
    { id := nid, date := today0, inventoryItem := e.inventoryItem,
      quantity := e.remainingQuantity,
      remainingQuantity := e.remainingQuantity, cost := e.cost,
      expiryDate := e.expiryDate, createdAt := now0, addedBy := uid } ::
      carryFrom today0 now0 uid (nid + 1) rest

/-- The carry-forward set described by the claim: exactly yesterday's
entries with positive remaining quantity whose expiry is null or not in the
past, copied into fresh today entries. -/
def carriedForwardEntries (s : KState) (uid : Nat) : List DailyInventoryEntry :=
  carryFrom s.today s.now uid s.nextId
    ((s.entries.filter (fun e => decide (e.date = s.today - 1) &&
        decide (0 < e.remainingQuantity))).filter
      (fun e => !expiredB s.now e.expiryDate))

theorem carryFrom_length (today0 now0 uid : Nat) :
    ∀ (nid : Nat) (l : List DailyInventoryEntry),
      (carryFrom today0 now0 uid nid l).length = l.length := by
  intro nid l
  induction l generalizing nid with
  | nil => rfl
  | cons e rest ih => simp [carryFrom, ih]

theorem carry_fold (now0 today0 uid : Nat) (l : List DailyInventoryEntry) :
    ∀ t : KState, t.now = now0 → t.today = today0 →
      l.foldl (fun acc e =>
        if expiredB acc.now e.expiryDate then acc
        else createEntry acc.today e.inventoryItem e.remainingQuantity
          e.remainingQuantity e.cost e.expiryDate uid acc) t =
      { t with
        entries := t.entries ++ carryFrom today0 now0 uid t.nextId
          (l.filter (fun e => !expiredB now0 e.expiryDate)),
        nextId := t.nextId +
          (l.filter (fun e => !expiredB now0 e.expiryDate)).length } := by
  induction l with
  | nil =>
    intro t h1 h2
    simp [carryFrom]
  | cons e rest ih =>
    intro t h1 h2
    by_cases hx : expiredB now0 e.expiryDate
    · rw [List.foldl_cons, if_pos (h1 ▸ hx)]
      rw [ih t h1 h2]
      simp [List.filter_cons, hx]
    · rw [List.foldl_cons, if_neg (by rw [h1]; exact hx)]
      rw [ih _ (by simp [createEntry, h1]) (by simp [createEntry, h2])]
      have hfe : (e :: rest).filter (fun e => !expiredB now0 e.expiryDate) =
          e :: rest.filter (fun e => !expiredB now0 e.expiryDate) := by
        simp [List.filter_cons, hx]
      rw [hfe]
      unfold createEntry
      simp only [h1, h2]
      rw [carryFrom]
      simp [List.append_assoc]
      omega

/-- Closed form of `startNewDay`: the two precondition failures leave the
state untouched, and a successful run appends exactly the carry-forward
entries (everything else, in particular every StockItem, is unchanged). -/
theorem startNewDay_eq (uid : Nat) (s : KState) :
    startNewDay uid s =
      if dayEnded s s.today then (s, some ApiErr.alreadyEnded)
      else if dayEnded s (s.today - 1) = false then
        (s, some ApiErr.priorDayNotEnded)
      else
        ({ s with
            entries := s.entries ++ carriedForwardEntries s uid,
            nextId := s.nextId + (carriedForwardEntries s uid).length },
          none) := by
  unfold startNewDay
  by_cases h1 : dayEnded s s.today = true
  · rw [if_pos h1, if_pos h1]
  · rw [if_neg h1, if_neg h1]
    by_cases h2 : dayEnded s (s.today - 1) = false
    · have h2' : (!dayEnded s (s.today - 1)) = true := by simp [h2]
      rw [if_pos h2', if_pos h2]
    · have h2t : dayEnded s (s.today - 1) = true := by
        rcases Bool.eq_false_or_eq_true (dayEnded s (s.today - 1)) with h | h
        · exact h
        · exact absurd h h2
      have h2' : ¬ ((!dayEnded s (s.today - 1)) = true) := by simp [h2t]
      rw [if_neg h2', if_neg h2]
      dsimp only
      rw [carry_fold s.now s.today uid _ s rfl rfl]
      unfold carriedForwardEntries
      rw [carryFrom_length]

/-- Total `quantity` over the entries of one item on one day. -/
def todaySumL (today0 itemId : Nat) (l : List DailyInventoryEntry) : Nat :=
  ((l.filter (fun e => decide (e.date = today0) &&
      decide (e.inventoryItem = itemId))).map (fun e => e.quantity)).sum

/-- Total `quantity` over today's ledger entries of one item. -/
def todaySum (s : KState) (itemId : Nat) : Nat :=
  todaySumL s.today itemId s.entries

theorem todaySumL_append (today0 itemId : Nat)
    (A B : List DailyInventoryEntry) :
    todaySumL today0 itemId (A ++ B) =
      todaySumL today0 itemId A + todaySumL today0 itemId B := by
  unfold todaySumL
  rw [List.filter_append, List.map_append, List.sum_append]

/-- Total remaining quantity, for one item, over yesterday's carryable
entries (positive remainder, expiry null or not in the past). -/
def carrySum (s : KState) (itemId : Nat) : Nat :=
  ((((s.entries.filter (fun e => decide (e.date = s.today - 1) &&
        decide (0 < e.remainingQuantity))).filter
      (fun e => !expiredB s.now e.expiryDate)).filter
        (fun e => decide (e.inventoryItem = itemId))).map
    (fun e => e.remainingQuantity)).sum

theorem carryFrom_todaySum (today0 now0 uid itemId : Nat) :
    ∀ (nid : Nat) (l : List DailyInventoryEntry),
      (((carryFrom today0 now0 uid nid l).filter
          (fun e => decide (e.date = today0) &&
            decide (e.inventoryItem = itemId))).map
        (fun e => e.quantity)).sum =
      ((l.filter (fun e => decide (e.inventoryItem = itemId))).map
        (fun e => e.remainingQuantity)).sum := by
  intro nid l
  induction l generalizing nid with
  | nil => rfl
  | cons e rest ih =>
    rw [carryFrom]
    by_cases hit : e.inventoryItem = itemId
    · simp only [List.filter_cons]
      simp [hit, ih]
    · simp only [List.filter_cons]
      simp [hit, ih]

theorem carryFrom_filter_ne (today0 now0 uid d : Nat) (hne : d ≠ today0) :
    ∀ (nid : Nat) (l : List DailyInventoryEntry),
      (carryFrom today0 now0 uid nid l).filter
        (fun e => decide (e.date = d) && decide (0 < e.remainingQuantity)) =
        [] := by
  intro nid l
  induction l generalizing nid with
  | nil => rfl
  | cons e rest ih =>
    rw [carryFrom]
    simp only [List.filter_cons]
    have : ¬ (today0 = d) := fun h => hne h.symm
    simp [this, ih]

/-- The waste record `expireStep` creates for one item at a given clock. -/
def wasteOfAt (now0 : Nat) (it : InventoryItem) : WasteRecord :=
  { ingredient := it.id, category := "expired", quantity := it.currentStock,
    unit := it.unit, loggedAt := now0 }

/-- The item update of `expireStep`: stock fields zeroed, status expired. -/
def expireUpd (uid : Option Nat) (x : InventoryItem) : InventoryItem :=
  { x with currentStock := 0, quantity := 0, status := ItemStatus.expired,
           lastUpdatedBy := uid }

theorem findItem_expireStep (uid : Option Nat) (acc : KState × Nat × Int)
    (it : InventoryItem) (id : Nat) :
    findItem (expireStep uid acc it).1 id =
      (findItem acc.1 id).map (fun x =>
        if x.id = it.id then
          { x with currentStock := 0, quantity := 0,
                   status := ItemStatus.expired, lastUpdatedBy := uid }
        else x) := by
  show findItem (setItemExpiredZero it.id uid _) id = _
  unfold setItemExpiredZero
  rw [findItem_mapItems _ _ (by intro x; split <;> rfl)]
  rfl

theorem expireStep_now (uid : Option Nat) (acc : KState × Nat × Int)
    (it : InventoryItem) : (expireStep uid acc it).1.now = acc.1.now := rfl

theorem expireStep_wasteLogs (uid : Option Nat) (acc : KState × Nat × Int)
    (it : InventoryItem) :
    (expireStep uid acc it).1.wasteLogs =
      acc.1.wasteLogs ++ [wasteOfAt acc.1.now it] := rfl

theorem processExpired_fold (uid : Option Nat) (now0 : Nat) :
    ∀ (L : List InventoryItem) (t : KState) (c0 : Nat) (k0 : Int),
      t.now = now0 →
      (L.map (fun it => it.id)).Nodup →
      (∀ x ∈ L, findItem t x.id = some x) →
      (L.foldl (expireStep uid) (t, c0, k0)).2.1 = c0 + L.length ∧
      (L.foldl (expireStep uid) (t, c0, k0)).2.2 =
        k0 + (L.map wasteCostOf).sum ∧
      (L.foldl (expireStep uid) (t, c0, k0)).1.wasteLogs =
        t.wasteLogs ++ L.map (wasteOfAt now0) ∧
      (∀ x ∈ L, findItem (L.foldl (expireStep uid) (t, c0, k0)).1 x.id =
        some (expireUpd uid x)) ∧
      (∀ id, (∀ x ∈ L, x.id ≠ id) →
        findItem (L.foldl (expireStep uid) (t, c0, k0)).1 id =
          findItem t id) ∧
      (L.foldl (expireStep uid) (t, c0, k0)).1.now = now0 := by
  intro L
  induction L with
  | nil =>
    intro t c0 k0 hnow _ _
    refine ⟨rfl, by simp, by simp, ?_, ?_, hnow⟩
    · intro x hx
      cases hx
    · intro id _
      rfl
  | cons x rest ih =>
    intro t c0 k0 hnow hnd hfind
    rw [List.map_cons, List.nodup_cons] at hnd
    have hx0 : findItem t x.id = some x := hfind x (List.mem_cons_self x rest)
    have hstep : findItem (expireStep uid (t, c0, k0) x).1 x.id =
        some (expireUpd uid x) := by
      rw [findItem_expireStep, hx0]
      simp [expireUpd]
    have hstep_other : ∀ (i : Nat), i ≠ x.id →
        findItem (expireStep uid (t, c0, k0) x).1 i = findItem t i := by
      intro i hy
      rw [findItem_expireStep]
      rcases hfy : findItem t i with _ | z
      · rfl
      · have hz : z.id = i := by simpa using List.find?_some hfy
        have hzx : ¬ z.id = x.id := by rw [hz]; exact hy
        simp [hzx]
    have hrest_find : ∀ y ∈ rest, findItem (expireStep uid (t, c0, k0) x).1 y.id =
        some y := by
      intro y hy
      have hne : y.id ≠ x.id := by
        intro hcontra
        exact hnd.1 (hcontra ▸ List.mem_map.2 ⟨y, hy, rfl⟩)
      rw [hstep_other y.id hne]
      exact hfind y (List.mem_cons_of_mem x hy)
    have hnow' : (expireStep uid (t, c0, k0) x).1.now = now0 := by
      rw [expireStep_now]
      exact hnow
    have ihr := ih (expireStep uid (t, c0, k0) x).1 (c0 + 1)
      (k0 + wasteCostOf x) hnow' hnd.2 hrest_find
    rw [List.foldl_cons]
    have hshape : expireStep uid (t, c0, k0) x =
        ((expireStep uid (t, c0, k0) x).1, c0 + 1, k0 + wasteCostOf x) := rfl
    rw [hshape]
    refine ⟨?_, ?_, ?_, ?_, ?_, ihr.2.2.2.2.2⟩
    · rw [ihr.1]
      simp [List.length_cons]
      omega
    · rw [ihr.2.1]
      simp [List.map_cons, List.sum_cons]
      ring
    · rw [ihr.2.2.1]
      rw [expireStep_wasteLogs]
      simp [hnow, List.append_assoc]
    · intro y hy
      rcases List.mem_cons.1 hy with rfl | hy'
      · have hyrest : ∀ z ∈ rest, z.id ≠ y.id := by
          intro z hz hcontra
          exact hnd.1 (hcontra ▸ List.mem_map.2 ⟨z, hz, rfl⟩)
        rw [ihr.2.2.2.2.1 y.id hyrest]
        exact hstep
      · exact ihr.2.2.2.1 y hy'
    · intro id hid
      have hidrest : ∀ z ∈ rest, z.id ≠ id := by
        intro z hz
        exact hid z (List.mem_cons_of_mem x hz)
      rw [ihr.2.2.2.2.1 id hidrest]
      exact hstep_other id (Ne.symm (hid x (List.mem_cons_self x rest)))

/-
  ## Stock accounting for order creation and cancellation
-/

/-- Required quantity of the stock item `targetId` for one line's resolved
ingredient list at a given line quantity, counting only ingredients that
exist in the registry (missing ones are skipped by both the deduction and
the restoration). -/
def ingsRequirement (present : Nat → Bool) (targetId lineQty : Nat)
    (ings : List MenuIngredient) : Nat :=
  ((ings.filter (fun ing => decide (ing.ingredient = targetId) &&
      present ing.ingredient)).map (fun ing => ing.quantity * lineQty)).sum

/-- Required quantity of `targetId` for one order line
`(menuItemId, lineQuantity)`. -/
def lineRequirement (menus : List MenuItem) (present : Nat → Bool)
    (targetId : Nat) (line : Nat × Nat) : Nat :=
  match menus.find? (fun m => m.id == line.1) with
  | none => 0
  | some m => ingsRequirement present targetId line.2 m.ingredients

/-- Total required quantity of `targetId` over a list of order lines. -/
def linesRequirement (menus : List MenuItem) (present : Nat → Bool)
    (targetId : Nat) (lines : List (Nat × Nat)) : Nat :=
  (lines.map (lineRequirement menus present targetId)).sum

theorem deduct_menuItems (itemId qty uid : Nat) (s : KState) :
    (deductFromDailyInventory itemId qty uid s).1.menuItems = s.menuItems := by
  unfold deductFromDailyInventory
  simp only [walkDeduct_eq]
  by_cases h : 0 < needAfter s.now qty (sortEntries (candidates s itemId))
  · rw [if_pos h]
  · rw [if_neg h]
    rfl

theorem deduct_now (itemId qty uid : Nat) (s : KState) :
    (deductFromDailyInventory itemId qty uid s).1.now = s.now := by
  unfold deductFromDailyInventory
  simp only [walkDeduct_eq]
  by_cases h : 0 < needAfter s.now qty (sortEntries (candidates s itemId))
  · rw [if_pos h]
  · rw [if_neg h]
    rfl

theorem stockOf_withEntries (s : KState) (E : List DailyInventoryEntry)
    (id : Nat) : stockOf { s with entries := E } id = stockOf s id := rfl

theorem presentB_withEntries (s : KState) (E : List DailyInventoryEntry)
    (id : Nat) : presentB { s with entries := E } id = presentB s id := rfl

theorem deduct_presentB (itemId qty uid : Nat) (s : KState) (id : Nat) :
    presentB (deductFromDailyInventory itemId qty uid s).1 id =
      presentB s id := by
  unfold deductFromDailyInventory
  simp only [walkDeduct_eq]
  by_cases h : 0 < needAfter s.now qty (sortEntries (candidates s itemId))
  · rw [if_pos h]
    rfl
  · rw [if_neg h]
    rw [show ((incStockBy itemId (-(qty : Int)) (some uid)
      { s with entries := applySaves (consumeMap s.now qty
        (sortEntries (candidates s itemId))) s.entries }, (none : Option ApiErr))).1 =
      incStockBy itemId (-(qty : Int)) (some uid)
      { s with entries := applySaves (consumeMap s.now qty
        (sortEntries (candidates s itemId))) s.entries } from rfl]
    rw [presentB_incStockBy, presentB_withEntries]

theorem deduct_stockOf_success (itemId qty uid : Nat) (s : KState)
    (h : (deductFromDailyInventory itemId qty uid s).2 = none) (id : Nat) :
    stockOf (deductFromDailyInventory itemId qty uid s).1 id =
      stockOf s id -
        (if id = itemId ∧ presentB s itemId = true then (qty : Int) else 0) := by
  unfold deductFromDailyInventory at h ⊢
  simp only [walkDeduct_eq] at h ⊢
  by_cases hc : 0 < needAfter s.now qty (sortEntries (candidates s itemId))
  · rw [if_pos hc] at h
    cases h
  · rw [if_neg hc]
    show stockOf (incStockBy itemId (-(qty : Int)) (some uid) _) id = _
    rw [stockOf_incStockBy, stockOf_withEntries, presentB_withEntries]
    by_cases hcase : id = itemId ∧ presentB s itemId = true
    · rw [if_pos hcase, if_pos hcase]
      ring
    · rw [if_neg hcase, if_neg hcase]
      ring

theorem deductIngredientsLoop_spec (uid lineQty : Nat) :
    ∀ (ings : List MenuIngredient) (s : KState),
      (deductIngredientsLoop uid lineQty ings s).2 = false →
      (∀ id, stockOf (deductIngredientsLoop uid lineQty ings s).1 id =
        stockOf s id - (ingsRequirement (presentB s) id lineQty ings : Int)) ∧
      (∀ id, presentB (deductIngredientsLoop uid lineQty ings s).1 id =
        presentB s id) ∧
      (deductIngredientsLoop uid lineQty ings s).1.menuItems = s.menuItems := by
  intro ings
  induction ings with
  | nil =>
    intro s _
    refine ⟨?_, fun id => rfl, rfl⟩
    intro id
    simp [deductIngredientsLoop, ingsRequirement]
  | cons ing rest ih =>
    intro s hesc
    unfold deductIngredientsLoop at hesc ⊢
    rcases hfind : findItem s ing.ingredient with _ | invItem
    · rw [hfind] at hesc
      dsimp only at hesc ⊢
      have hpres : presentB s ing.ingredient = false := by
        unfold presentB
        rw [hfind]
        rfl
      rcases ih s hesc with ⟨h1, h2, h3⟩
      refine ⟨?_, h2, h3⟩
      intro id
      rw [h1 id]
      have : ingsRequirement (presentB s) id lineQty (ing :: rest) =
          ingsRequirement (presentB s) id lineQty rest := by
        unfold ingsRequirement
        rw [List.filter_cons]
        simp [hpres]
      rw [this]
    · rw [hfind] at hesc
      dsimp only at hesc ⊢
      by_cases hlt : invItem.currentStock < ((ing.quantity * lineQty : Nat) : Int)
      · rw [if_pos hlt] at hesc
        cases hesc
      · rw [if_neg hlt] at hesc ⊢
        rcases hd : deductFromDailyInventory ing.ingredient
            (ing.quantity * lineQty) uid s with ⟨s', err⟩
        rw [hd] at hesc
        rcases err with _ | e
        · dsimp only at hesc ⊢
          set s'' := addInvLog ing.ingredient
            (-((ing.quantity * lineQty : Nat) : Int)) "Used in order" s' with hs''
          have hderr : (deductFromDailyInventory ing.ingredient
              (ing.quantity * lineQty) uid s).2 = none := by
            rw [hd]
          have hpres : presentB s ing.ingredient = true := by
            unfold presentB
            rw [hfind]
            rfl
          have hpresInv : ∀ id, presentB s'' id = presentB s id := by
            intro id
            have h1 : presentB s'' id = presentB s' id := rfl
            have h2 : presentB s' id = presentB s id := by
              have := deduct_presentB ing.ingredient (ing.quantity * lineQty)
                uid s id
              rw [hd] at this
              exact this
            rw [h1, h2]
          have hstock' : ∀ id, stockOf s'' id =
              stockOf s id - (if id = ing.ingredient then
                ((ing.quantity * lineQty : Nat) : Int) else 0) := by
            intro id
            have h1 : stockOf s'' id = stockOf s' id := rfl
            have h2 := deduct_stockOf_success ing.ingredient
              (ing.quantity * lineQty) uid s hderr id
            rw [hd] at h2
            dsimp only at h2
            rw [h1, h2]
            by_cases hid : id = ing.ingredient
            · rw [if_pos ⟨hid, hpres⟩, if_pos hid]
            · rw [if_neg (fun hc => hid hc.1), if_neg hid]
          have hmenu'' : s''.menuItems = s.menuItems := by
            have h1 : s''.menuItems = s'.menuItems := rfl
            have h2 := deduct_menuItems ing.ingredient
              (ing.quantity * lineQty) uid s
            rw [hd] at h2
            rw [h1, h2]
          rcases ih s'' hesc with ⟨h1, h2, h3⟩
          have hpeq : presentB s'' = presentB s := funext hpresInv
          refine ⟨?_, ?_, ?_⟩
          · intro id
            rw [h1 id, hpeq, hstock' id]
            have hreq : ingsRequirement (presentB s) id lineQty (ing :: rest) =
                (if id = ing.ingredient then ing.quantity * lineQty else 0) +
                  ingsRequirement (presentB s) id lineQty rest := by
              unfold ingsRequirement
              rw [List.filter_cons]
              by_cases hid : ing.ingredient = id
              · simp [hid, hid ▸ hpres]
              · have : ¬ (id = ing.ingredient) := fun hc => hid hc.symm
                simp [hid, this]
            rw [hreq]
            by_cases hid : id = ing.ingredient
            · rw [if_pos hid, if_pos hid]
              push_cast
              ring
            · rw [if_neg hid, if_neg hid]
              push_cast
              ring
          · intro id
            rw [h2 id, hpresInv id]
          · rw [h3, hmenu'']
        · cases hesc

theorem stockOf_appendSales (p q : Nat) (t : KState) (id : Nat) :
    stockOf (appendSales p q t) id = stockOf t id := rfl

theorem presentB_appendSales (p q : Nat) (t : KState) (id : Nat) :
    presentB (appendSales p q t) id = presentB t id := rfl

theorem menuItems_appendSales (p q : Nat) (t : KState) :
    (appendSales p q t).menuItems = t.menuItems := rfl

theorem linesRequirement_cons (menus : List MenuItem) (p : Nat → Bool)
    (id : Nat) (line : Nat × Nat) (lines : List (Nat × Nat)) :
    linesRequirement menus p id (line :: lines) =
      lineRequirement menus p id line + linesRequirement menus p id lines := by
  unfold linesRequirement
  rw [List.map_cons, List.sum_cons]

theorem processOrderItemsDeduct_spec (uid : Nat) :
    ∀ (req : List ReqOrderItem) (s : KState),
      (processOrderItemsDeduct uid req s).2 = false →
      (∀ id, stockOf (processOrderItemsDeduct uid req s).1 id =
        stockOf s id - (linesRequirement s.menuItems (presentB s) id
          (req.map (fun x => (x.menuItem, x.quantity))) : Int)) ∧
      (∀ id, presentB (processOrderItemsDeduct uid req s).1 id =
        presentB s id) ∧
      (processOrderItemsDeduct uid req s).1.menuItems = s.menuItems := by
  intro req
  induction req with
  | nil =>
    intro s _
    refine ⟨?_, fun id => rfl, rfl⟩
    intro id
    simp [processOrderItemsDeduct, linesRequirement]
  | cons it rest ih =>
    intro s hesc
    unfold processOrderItemsDeduct at hesc ⊢
    rcases hm : findMenu s it.menuItem with _ | m
    · rw [hm] at hesc
      dsimp only at hesc ⊢
      rcases ih s hesc with ⟨h1, h2, h3⟩
      refine ⟨?_, h2, h3⟩
      intro id
      rw [h1 id, List.map_cons, linesRequirement_cons]
      have hline : lineRequirement s.menuItems (presentB s) id
          (it.menuItem, it.quantity) = 0 := by
        unfold lineRequirement
        rw [show s.menuItems.find? (fun m => m.id == it.menuItem) = none
          from hm]
      rw [hline]
      push_cast
      ring
    · rw [hm] at hesc
      dsimp only at hesc ⊢
      by_cases hempty : m.ingredients.isEmpty = true
      · rw [if_pos hempty] at hesc ⊢
        dsimp only at hesc ⊢
        rw [if_neg (by simp : ¬ (false = true))] at hesc ⊢
        rcases ih (appendSales it.menuItem it.quantity s) hesc with ⟨h1, h2, h3⟩
        refine ⟨?_, ?_, ?_⟩
        · intro id
          rw [h1 id]
          have hnil : m.ingredients = [] := by
            cases hmi : m.ingredients
            · rfl
            · rw [hmi] at hempty
              cases hempty
          have hline : lineRequirement s.menuItems (presentB s) id
              (it.menuItem, it.quantity) = 0 := by
            unfold lineRequirement
            rw [show s.menuItems.find? (fun m => m.id == it.menuItem) =
              some m from hm]
            dsimp only
            rw [hnil]
            rfl
          rw [List.map_cons, linesRequirement_cons, hline]
          have hps : presentB (appendSales it.menuItem it.quantity s) =
              presentB s := rfl
          have hms : (appendSales it.menuItem it.quantity s).menuItems =
              s.menuItems := rfl
          rw [hps, hms, stockOf_appendSales]
          push_cast
          ring
        · intro id
          rw [h2 id]
          rfl
        · exact h3
      · rw [if_neg hempty] at hesc ⊢
        by_cases hflag : (deductIngredientsLoop uid it.quantity
            m.ingredients s).2 = true
        · rw [if_pos hflag] at hesc
          dsimp only at hesc
          cases hesc
        · rw [if_neg hflag] at hesc ⊢
          rw [Bool.not_eq_true] at hflag
          rcases deductIngredientsLoop_spec uid it.quantity m.ingredients s
            hflag with ⟨hd1, hd2, hd3⟩
          rcases ih (appendSales it.menuItem it.quantity
            (deductIngredientsLoop uid it.quantity m.ingredients s).1) hesc
            with ⟨h1, h2, h3⟩
          have hps : presentB (appendSales it.menuItem it.quantity
              (deductIngredientsLoop uid it.quantity m.ingredients s).1) =
              presentB s := funext (fun id => hd2 id)
          have hms : (appendSales it.menuItem it.quantity
              (deductIngredientsLoop uid it.quantity m.ingredients s).1).menuItems =
              s.menuItems := hd3
          refine ⟨?_, ?_, ?_⟩
          · intro id
            rw [h1 id, hms, hps]
            have hss : stockOf (appendSales it.menuItem it.quantity
                (deductIngredientsLoop uid it.quantity m.ingredients s).1) id =
                stockOf s id -
                  (ingsRequirement (presentB s) id it.quantity
                    m.ingredients : Int) := hd1 id
            rw [hss]
            have hline : lineRequirement s.menuItems (presentB s) id
                (it.menuItem, it.quantity) =
                ingsRequirement (presentB s) id it.quantity m.ingredients := by
              unfold lineRequirement
              rw [show s.menuItems.find? (fun m => m.id == it.menuItem) =
                some m from hm]
            rw [List.map_cons, linesRequirement_cons, hline]
            push_cast
            ring
          · intro id
            rw [h2 id, hps]
          · rw [h3, hms]

theorem restoreIngs_spec (uid lineQty : Nat) :
    ∀ (ings : List MenuIngredient) (t : KState),
      (∀ id, stockOf (ings.foldl (restoreIngStep uid lineQty) t) id =
        stockOf t id + (ingsRequirement (presentB t) id lineQty ings : Int)) ∧
      (∀ id, presentB (ings.foldl (restoreIngStep uid lineQty) t) id =
        presentB t id) ∧
      (ings.foldl (restoreIngStep uid lineQty) t).menuItems = t.menuItems := by
  intro ings
  induction ings with
  | nil =>
    intro t
    refine ⟨?_, fun id => rfl, rfl⟩
    intro id
    simp [ingsRequirement]
  | cons ing rest ih =>
    intro t
    rw [List.foldl_cons]
    have hstep_stock : ∀ id, stockOf (restoreIngStep uid lineQty t ing) id =
        stockOf t id + (if id = ing.ingredient ∧ presentB t ing.ingredient =
          true then ((ing.quantity * lineQty : Nat) : Int) else 0) := by
      intro id
      unfold restoreIngStep
      by_cases hz : ing.quantity * lineQty = 0
      · rw [if_pos hz]
        rw [hz]
        push_cast
        by_cases hcase : id = ing.ingredient ∧ presentB t ing.ingredient = true
        · rw [if_pos hcase]
          ring
        · rw [if_neg hcase]
          ring
      · rw [if_neg hz]
        show stockOf (incStockBy ing.ingredient _ (some uid) t) id = _
        rw [stockOf_incStockBy]
    have hstep_pres : ∀ id, presentB (restoreIngStep uid lineQty t ing) id =
        presentB t id := by
      intro id
      unfold restoreIngStep
      by_cases hz : ing.quantity * lineQty = 0
      · rw [if_pos hz]
      · rw [if_neg hz]
        show presentB (incStockBy ing.ingredient _ (some uid) t) id = _
        rw [presentB_incStockBy]
    have hstep_menu : (restoreIngStep uid lineQty t ing).menuItems =
        t.menuItems := by
      unfold restoreIngStep
      by_cases hz : ing.quantity * lineQty = 0
      · rw [if_pos hz]
      · rw [if_neg hz]
        rfl
    rcases ih (restoreIngStep uid lineQty t ing) with ⟨h1, h2, h3⟩
    have hpeq : presentB (restoreIngStep uid lineQty t ing) = presentB t :=
      funext hstep_pres
    refine ⟨?_, ?_, ?_⟩
    · intro id
      rw [h1 id, hpeq, hstep_stock id]
      have hreq : ingsRequirement (presentB t) id lineQty (ing :: rest) =
          (if id = ing.ingredient ∧ presentB t ing.ingredient = true then
            ing.quantity * lineQty else 0) +
            ingsRequirement (presentB t) id lineQty rest := by
        unfold ingsRequirement
        rw [List.filter_cons]
        by_cases hcase : id = ing.ingredient ∧ presentB t ing.ingredient = true
        · have h5 : (decide (ing.ingredient = id) &&
              presentB t ing.ingredient) = true := by
            simp [hcase.1, hcase.2]
          rw [h5, if_pos rfl, if_pos hcase, List.map_cons, List.sum_cons]
        · have h5 : (decide (ing.ingredient = id) &&
              presentB t ing.ingredient) = false := by
            rcases Decidable.em (id = ing.ingredient) with h6 | h6
            · have h7 : presentB t ing.ingredient = false := by
                rcases Bool.eq_false_or_eq_true
                    (presentB t ing.ingredient) with h8 | h8
                · exact absurd ⟨h6, h8⟩ hcase
                · exact h8
              simp [h7]
            · have h9 : ¬ (ing.ingredient = id) := fun hc => h6 hc.symm
              simp [h9]
          rw [h5, if_neg (by simp), if_neg hcase, Nat.zero_add]
      rw [hreq]
      by_cases hcase : id = ing.ingredient ∧ presentB t ing.ingredient = true
      · rw [if_pos hcase, if_pos hcase]
        push_cast
        ring
      · rw [if_neg hcase, if_neg hcase]
        push_cast
        ring
    · intro id
      rw [h2 id, hstep_pres id]
    · rw [h3, hstep_menu]

theorem restoreLineStep_spec (uid : Nat) (oi : OrderItem) (t : KState) :
    (∀ id, stockOf (restoreLineStep uid t oi) id = stockOf t id +
      (lineRequirement t.menuItems (presentB t) id
        (oi.menuItem, oi.quantity) : Int)) ∧
    (∀ id, presentB (restoreLineStep uid t oi) id = presentB t id) ∧
    (restoreLineStep uid t oi).menuItems = t.menuItems := by
  unfold restoreLineStep
  rcases hm : findMenu t oi.menuItem with _ | m
  · refine ⟨?_, fun id => rfl, rfl⟩
    intro id
    have hline : lineRequirement t.menuItems (presentB t) id
        (oi.menuItem, oi.quantity) = 0 := by
      unfold lineRequirement
      rw [show t.menuItems.find? (fun m => m.id == oi.menuItem) = none from hm]
    rw [hline]
    push_cast
    ring
  · rcases restoreIngs_spec uid oi.quantity m.ingredients t with ⟨h1, h2, h3⟩
    refine ⟨?_, h2, h3⟩
    intro id
    rw [h1 id]
    have hline : lineRequirement t.menuItems (presentB t) id
        (oi.menuItem, oi.quantity) =
        ingsRequirement (presentB t) id oi.quantity m.ingredients := by
      unfold lineRequirement
      rw [show t.menuItems.find? (fun m => m.id == oi.menuItem) =
        some m from hm]
    rw [hline]

theorem restoreOrderStock_fold (uid : Nat) :
    ∀ (lines : List OrderItem) (t : KState),
      (∀ id, stockOf (lines.foldl (restoreLineStep uid) t) id =
        stockOf t id + (linesRequirement t.menuItems (presentB t) id
          (lines.map (fun oi => (oi.menuItem, oi.quantity))) : Int)) ∧
      (∀ id, presentB (lines.foldl (restoreLineStep uid) t) id =
        presentB t id) ∧
      (lines.foldl (restoreLineStep uid) t).menuItems = t.menuItems := by
  intro lines
  induction lines with
  | nil =>
    intro t
    refine ⟨?_, fun id => rfl, rfl⟩
    intro id
    simp [linesRequirement]
  | cons oi rest ih =>
    intro t
    rw [List.foldl_cons]
    rcases restoreLineStep_spec uid oi t with ⟨hs1, hs2, hs3⟩
    rcases ih (restoreLineStep uid t oi) with ⟨h1, h2, h3⟩
    have hpeq : presentB (restoreLineStep uid t oi) = presentB t :=
      funext hs2
    refine ⟨?_, ?_, ?_⟩
    · intro id
      rw [h1 id, hpeq, hs3, hs1 id, List.map_cons, linesRequirement_cons]
      push_cast
      ring
    · intro id
      rw [h2 id, hs2 id]
    · rw [h3, hs3]

theorem validateOrderItems_proj (s : KState) :
    ∀ (req : List ReqOrderItem) (v : List OrderItem) (sub : Nat),
      validateOrderItems s req = Except.ok (v, sub) →
      v.map (fun x => (x.menuItem, x.quantity)) =
        req.map (fun x => (x.menuItem, x.quantity)) := by
  intro req
  induction req with
  | nil =>
    intro v sub h
    unfold validateOrderItems at h
    cases h
    rfl
  | cons it rest ih =>
    intro v sub h
    unfold validateOrderItems at h
    by_cases h1 : it.quantity < 1
    · rw [if_pos h1] at h
      cases h
    · rw [if_neg h1] at h
      by_cases h2 : it.unitPrice = 0
      · rw [if_pos h2] at h
        cases h
      · rw [if_neg h2] at h
        rcases hm : findMenu s it.menuItem with _ | m
        · rw [hm] at h
          cases h
        · rw [hm] at h
          dsimp only at h
          by_cases h3 : m.ingredients.isEmpty = true
          · rw [if_pos h3] at h
            cases h
          · rw [if_neg h3] at h
            by_cases h4 : (checkIngredientAvailability m.ingredients
                it.quantity s).isAvailable = false
            · rw [if_pos h4] at h
              cases h
            · rw [if_neg h4] at h
              rcases hrest : validateOrderItems s rest with e | p
              · rw [hrest] at h
                cases h
              · rw [hrest] at h
                rcases p with ⟨v', sub'⟩
                dsimp only at h
                cases h
                rw [List.map_cons, List.map_cons, ih v' sub' hrest]

/-- Phase-1 failure: if any line's menu item resolves but its availability
check fails, `validateOrderItems` returns an error. -/
theorem validateOrderItems_fails {s : KState} :
    ∀ {req : List ReqOrderItem},
      (∃ it ∈ req, ∃ m, findMenu s it.menuItem = some m ∧
        (checkIngredientAvailability m.ingredients it.quantity s).isAvailable =
          false) →
      ∃ e, validateOrderItems s req = Except.error e := by
  intro req
  induction req with
  | nil =>
    intro h
    rcases h with ⟨it, hit, _⟩
    cases hit
  | cons a rest ih =>
    intro h
    unfold validateOrderItems
    by_cases h1 : a.quantity < 1
    · rw [if_pos h1]
      exact ⟨_, rfl⟩
    · rw [if_neg h1]
      by_cases h2 : a.unitPrice = 0
      · rw [if_pos h2]
        exact ⟨_, rfl⟩
      · rw [if_neg h2]
        rcases hm : findMenu s a.menuItem with _ | m
        · exact ⟨_, rfl⟩
        · dsimp only
          by_cases h3 : m.ingredients.isEmpty = true
          · rw [if_pos h3]
            exact ⟨_, rfl⟩
          · rw [if_neg h3]
            by_cases h4 : (checkIngredientAvailability m.ingredients
                a.quantity s).isAvailable = false
            · rw [if_pos h4]
              exact ⟨_, rfl⟩
            · rw [if_neg h4]
              have hrest : ∃ it ∈ rest, ∃ m', findMenu s it.menuItem =
                  some m' ∧ (checkIngredientAvailability m'.ingredients
                    it.quantity s).isAvailable = false := by
                rcases h with ⟨it, hit, m', hm', hav⟩
                rcases List.mem_cons.1 hit with rfl | hit'
                · rw [hm] at hm'
                  cases hm'
                  exact absurd hav h4
                · exact ⟨it, hit', m', hm', hav⟩
              rcases ih hrest with ⟨e, he⟩
              rw [he]
              exact ⟨e, rfl⟩

theorem stockOf_addOrderState (name otype : String) (v : List OrderItem)
    (sub uid : Nat) (s : KState) (id : Nat) :
    stockOf (addOrderState name otype v sub uid s) id = stockOf s id := rfl

theorem presentB_addOrderState (name otype : String) (v : List OrderItem)
    (sub uid : Nat) (s : KState) (id : Nat) :
    presentB (addOrderState name otype v sub uid s) id = presentB s id := rfl

theorem menuItems_addOrderState (name otype : String) (v : List OrderItem)
    (sub uid : Nat) (s : KState) :
    (addOrderState name otype v sub uid s).menuItems = s.menuItems := rfl

theorem findOrder_addOrderState (name otype : String) (v : List OrderItem)
    (sub uid : Nat) (s : KState)
    (hfresh : ∀ o ∈ s.orders, o.id ≠ s.nextId) :
    findOrder (addOrderState name otype v sub uid s) s.nextId =
      some (mkOrder s.nextId name otype v sub uid) := by
  unfold findOrder addOrderState
  dsimp only
  rw [find?_append_of_none (by
    rw [List.find?_eq_none]
    intro o ho
    simpa using hfresh o ho)]
  rw [List.find?_cons_of_pos _ (by simp [mkOrder])]

theorem stockOf_setOrderStatus (id0 : Nat) (st : OrderStatus) (uid : Nat)
    (s : KState) (id : Nat) :
    stockOf (setOrderStatus id0 st uid s) id = stockOf s id := rfl

theorem updateOrderStatus_cancel (id0 uid : Nat) (s : KState) (ord : Order)
    (hfind : findOrder s id0 = some ord)
    (hnc : ord.status ≠ OrderStatus.cancelled) :
    updateOrderStatus id0 "cancelled" uid s =
      (setOrderStatus id0 OrderStatus.cancelled uid
        (restoreOrderStock ord uid s), none) := by
  unfold updateOrderStatus
  rw [show parseOrderStatus "cancelled" = some OrderStatus.cancelled from rfl]
  rw [hfind]
  dsimp only
  rw [if_pos ⟨rfl, hnc⟩]

theorem deduct_orders (itemId qty uid : Nat) (s : KState) :
    (deductFromDailyInventory itemId qty uid s).1.orders = s.orders := by
  unfold deductFromDailyInventory
  simp only [walkDeduct_eq]
  by_cases h : 0 < needAfter s.now qty (sortEntries (candidates s itemId))
  · rw [if_pos h]
  · rw [if_neg h]
    rfl

theorem dil_orders (uid lineQty : Nat) :
    ∀ (ings : List MenuIngredient) (s : KState),
      (deductIngredientsLoop uid lineQty ings s).1.orders = s.orders := by
  intro ings
  induction ings with
  | nil => intro s; rfl
  | cons ing rest ih =>
    intro s
    unfold deductIngredientsLoop
    rcases hfind : findItem s ing.ingredient with _ | invItem
    · exact ih s
    · dsimp only
      by_cases hlt : invItem.currentStock < ((ing.quantity * lineQty : Nat) : Int)
      · rw [if_pos hlt]
      · rw [if_neg hlt]
        rcases hd : deductFromDailyInventory ing.ingredient
            (ing.quantity * lineQty) uid s with ⟨s', err⟩
        have hso : s'.orders = s.orders := by
          have := deduct_orders ing.ingredient (ing.quantity * lineQty) uid s
          rw [hd] at this
          exact this
        rcases err with _ | e
        · dsimp only
          rw [ih (addInvLog ing.ingredient
            (-((ing.quantity * lineQty : Nat) : Int)) "Used in order" s')]
          exact hso
        · exact hso

theorem pod_orders (uid : Nat) :
    ∀ (req : List ReqOrderItem) (s : KState),
      (processOrderItemsDeduct uid req s).1.orders = s.orders := by
  intro req
  induction req with
  | nil => intro s; rfl
  | cons it rest ih =>
    intro s
    unfold processOrderItemsDeduct
    rcases hm : findMenu s it.menuItem with _ | m
    · exact ih s
    · dsimp only
      by_cases hempty : m.ingredients.isEmpty = true
      · rw [if_pos hempty]
        dsimp only
        rw [if_neg (by simp : ¬ (false = true))]
        exact ih (appendSales it.menuItem it.quantity s)
      · rw [if_neg hempty]
        by_cases hflag : (deductIngredientsLoop uid it.quantity
            m.ingredients s).2 = true
        · rw [if_pos hflag]
          dsimp only
          rw [ih (deductIngredientsLoop uid it.quantity m.ingredients s).1]
          exact dil_orders uid it.quantity m.ingredients s
        · rw [if_neg hflag]
          dsimp only
          rw [ih (appendSales it.menuItem it.quantity
            (deductIngredientsLoop uid it.quantity m.ingredients s).1)]
          exact dil_orders uid it.quantity m.ingredients s

theorem findOrder_of_orders_eq {s t : KState} (h : s.orders = t.orders)
    (id : Nat) : findOrder s id = findOrder t id := by
  unfold findOrder
  rw [h]

theorem find?_self_of_nodup {l : List InventoryItem}
    (h : (l.map (fun it => it.id)).Nodup) {x : InventoryItem} (hx : x ∈ l) :
    l.find? (fun it => it.id == x.id) = some x := by
  induction l with
  | nil => cases hx
  | cons a t ih =>
    rw [List.map_cons, List.nodup_cons] at h
    by_cases hid : a.id = x.id
    · have hxa : x = a := by
        rcases List.mem_cons.1 hx with h1 | h1
        · exact h1
        · exact absurd (hid ▸ List.mem_map.2 ⟨x, h1, rfl⟩) h.1
      subst hxa
      exact List.find?_cons_of_pos _ (by simp)
    · have hxt : x ∈ t := by
        rcases List.mem_cons.1 hx with h1 | h1
        · exact absurd (h1 ▸ rfl) hid
        · exact h1
      rw [List.find?_cons_of_neg _ (by simpa using hid)]
      exact ih h.2 hxt

/-
  ## The claims
-/

/-- Claim C9 (confirmed): for every ingredient list and multiplier, the
availability checker returns `stockStatus = "out_of_stock"` with
`isAvailable = false` exactly when the `missingIngredients` list is
non-empty (missing, expired, or short items override everything); otherwise
`isAvailable = true` with `stockStatus = "low_stock"` when some (non-short)
item triggered the soft low-stock flag, and `"available"` otherwise. -/
theorem claim_C9_classification (ings : List MenuIngredient) (mult : Nat)
    (s : KState) :
    (checkIngredientAvailability ings mult s).isAvailable =
      (checkIngredientAvailability ings mult s).missingIngredients.isEmpty ∧
    (checkIngredientAvailability ings mult s).stockStatus =
      (if (checkIngredientAvailability ings mult s).missingIngredients.isEmpty
       then (if ings.any (softTrigger s mult) then "low_stock" else "available")
       else "out_of_stock") := by
  rcases checkAvailability_spec ings mult s with ⟨h1, h2, h3⟩
  rw [h1, h2, h3]
  constructor
  · rfl
  · by_cases hmpt : (missingOf s mult ings).isEmpty = true
    · rw [if_pos hmpt]
    · rw [if_neg hmpt]

/-- Claim C7 (confirmed): `startNewDay` fails with the already-ended error
when today is ended, fails with the prior-day-not-ended error when
yesterday's status is not ended, and on success creates, for exactly those
of yesterday's entries with positive remaining quantity and expiry null or
not in the past, a fresh today entry with `quantity = remainingQuantity`
and the same expiry and cost — leaving every StockItem (and everything but
the entry store and the id counter) unchanged. -/
theorem claim_C7_startNewDay (uid : Nat) (s : KState) :
    startNewDay uid s =
      if dayEnded s s.today then (s, some ApiErr.alreadyEnded)
      else if dayEnded s (s.today - 1) = false then
        (s, some ApiErr.priorDayNotEnded)
      else
        ({ s with
            entries := s.entries ++ carriedForwardEntries s uid,
            nextId := s.nextId + (carriedForwardEntries s uid).length },
          none) :=
  startNewDay_eq uid s

/-- A delivered order, used for claim C2. -/
def c2Order : Order :=
  { id := 1, customerName := "A", orderType := "dine-in", items := [],
    subtotal := 0, totalAmount := 0, status := OrderStatus.delivered,
    actualDeliveryTime := none, createdBy := 1, updatedBy := none }

/-- A state with one delivered order, used to refute claim C2. -/
def c2State : KState :=
  { items := [], entries := [], dayStatuses := [], orders := [c2Order],
    menuItems := [], wasteLogs := [], invLogs := [], sales := [],
    nextId := 2, now := 0, today := 0 }

/-- Claim C2 counterexample: `updateOrderStatus` performs no check on the
order's previous status, so a `delivered` order is moved back to `pending`
without any rejection — `delivered` is not terminal for status-transition
requests. -/
theorem claim_C2_counterexample :
    (updateOrderStatus 1 "pending" 7 c2State).2 = none ∧
    (findOrder (updateOrderStatus 1 "pending" 7 c2State).1 1).map
      Order.status = some OrderStatus.pending := by
  decide

/-- Claim C2 (amended): the order-edit endpoint `updateOrder` rejects every
request on an order already `delivered` or `cancelled`, leaving the state
unchanged; `updateOrderStatus` performs no such check, so status-transition
requests can move an order out of `delivered`/`cancelled` (see the
counterexample). -/
theorem claim_C2_edit_guard (s : KState) (id uid : Nat)
    (newItems : Option (List ReqOrderItem)) (ord : Order)
    (hfind : findOrder s id = some ord)
    (hterm : ord.status = OrderStatus.delivered ∨
      ord.status = OrderStatus.cancelled) :
    updateOrder id newItems uid s = (s, some ApiErr.cannotEdit) := by
  unfold updateOrder
  rw [hfind]
  dsimp only
  rw [if_pos hterm]

/-- Witness for the amended claim C2, on a concrete delivered order. -/
theorem claim_C2_edit_guard_witness :
    findOrder c2State 1 = some c2Order ∧
    updateOrder 1 none 7 c2State = (c2State, some ApiErr.cannotEdit) :=
  ⟨by decide,
    claim_C2_edit_guard c2State 1 7 none c2Order (by decide)
      (Or.inl (by decide))⟩

/-- The ordering asserted by the original claim C1 — expiry ascending with
null expiries LAST, then creation time ascending (the MongoDB sort the code
actually performs puts nulls first). -/
def entryKeyClaim (e : DailyInventoryEntry) : Nat × Nat × Nat :=
  match e.expiryDate with
  | none => (1, 0, e.createdAt)
  | some d => (0, d, e.createdAt)

/-- Comparator of the claimed (nulls-last) order. -/
def entryLeClaim (a b : DailyInventoryEntry) : Bool :=
  keyLe (entryKeyClaim a) (entryKeyClaim b)

/-- Insertion into a claimed-order-sorted list. -/
def insertEntryClaim (e : DailyInventoryEntry) :
    List DailyInventoryEntry → List DailyInventoryEntry
  | [] => [e]
  | x :: xs =>
    if entryLeClaim e x then e :: x :: xs else x :: insertEntryClaim e xs

/-- Sorting by the claimed (nulls-last) order. -/
def sortEntriesClaim : List DailyInventoryEntry → List DailyInventoryEntry
  | [] => []
  | x :: xs => insertEntryClaim x (sortEntriesClaim xs)

/-- The deduction as claim C1 words it: identical walk, but over the
candidates ordered with null expiries last. -/
def deductClaimOrder (itemId qty uid : Nat) (s : KState) : OpRes :=
  let sorted := sortEntriesClaim (candidates s itemId)
  let walked := walkDeduct s.now sorted qty
  let s1 := { s with entries := applySaves walked.1 s.entries }
  if 0 < walked.2 then
    (s1, some (ApiErr.insufficientStock qty (qty - walked.2)))
  else
    (incStockBy itemId (-(qty : Int)) (some uid) s1, none)

/-- An undated batch added later than a dated one (claim C1). -/
def c1E1 : DailyInventoryEntry :=
  { id := 1, date := 0, inventoryItem := 1, quantity := 5,
    remainingQuantity := 5, cost := none, expiryDate := none, createdAt := 2,
    addedBy := 1 }

/-- A dated, unexpired batch added earlier (claim C1). -/
def c1E2 : DailyInventoryEntry :=
  { id := 2, date := 0, inventoryItem := 1, quantity := 5,
    remainingQuantity := 5, cost := none, expiryDate := some 100,
    createdAt := 1, addedBy := 1 }

/-- A state holding both batches of one item on the current day. -/
def c1State : KState :=
  { items := [], entries := [c1E1, c1E2], dayStatuses := [], orders := [],
    menuItems := [], wasteLogs := [], invLogs := [], sales := [],
    nextId := 3, now := 10, today := 0 }

/-- Claim C1 counterexample: with an undated batch and an earlier-created
dated batch both available, the code consumes the UNDATED batch first
(MongoDB sorts null before dates), while the claimed nulls-last order would
consume the dated batch — the two walks produce different states. -/
theorem claim_C1_counterexample :
    (deductFromDailyInventory 1 1 9 c1State).1.entries.find?
        (fun u => u.id == 1) = some { c1E1 with remainingQuantity := 4 } ∧
    (deductFromDailyInventory 1 1 9 c1State).1.entries.find?
        (fun u => u.id == 2) = some c1E2 ∧
    (deductClaimOrder 1 1 9 c1State).1.entries.find?
        (fun u => u.id == 2) = some { c1E2 with remainingQuantity := 4 } ∧
    deductFromDailyInventory 1 1 9 c1State ≠ deductClaimOrder 1 1 9 c1State := by
  decide

/-- Claim C1 (amended): the candidate set of a deduction is exactly the
`(item, today)` entries with positive remaining quantity; they are walked
in order of expiry ascending with null expiries FIRST (the MongoDB null
ordering), then creation time ascending; entries whose expiry is already in
the past are skipped untouched; every other entry is left unchanged; and a
visited usable entry is decremented by `min(remainingQuantity, stillNeeded)`
where the still-needed amount discounts what the usable entries ordered
before it supplied. -/
theorem claim_C1_deduct_walk (s : KState) (itemId qty uid : Nat)
    (hwf : (s.entries.map (fun e => e.id)).Nodup)
    (L1 L2 : List DailyInventoryEntry) (x : DailyInventoryEntry)
    (hsplit : sortEntries (candidates s itemId) = L1 ++ x :: L2) :
    ((sortEntries (candidates s itemId)).Perm (candidates s itemId) ∧
      sortedByKey (sortEntries (candidates s itemId))) ∧
    (∀ e ∈ s.entries, candB s.today itemId e = false →
      (deductFromDailyInventory itemId qty uid s).1.entries.find?
        (fun u => u.id == e.id) = some e) ∧
    (expiredB s.now x.expiryDate = true →
      (deductFromDailyInventory itemId qty uid s).1.entries.find?
        (fun u => u.id == x.id) = some x) ∧
    (expiredB s.now x.expiryDate = false →
      (deductFromDailyInventory itemId qty uid s).1.entries.find?
        (fun u => u.id == x.id) =
        some { x with remainingQuantity := (x.remainingQuantity -
          min x.remainingQuantity (needAfter s.now qty L1)) }) := by
  have hfind := deduct_split_find itemId qty uid hwf hsplit
  refine ⟨⟨sortEntries_perm _, sortEntries_sorted _⟩, ?_, ?_, ?_⟩
  · intro e he hc
    exact deduct_noncandidate itemId qty uid hwf he hc
  · intro hx
    rw [if_pos hx] at hfind
    exact hfind
  · intro hx
    rw [if_neg (by simp [hx])] at hfind
    exact hfind

/-- Witness for the amended claim C1 on the two-batch state: with a demand
of 7, the undated batch (first in the walk) supplies 5 and the dated batch
is decremented by the remaining 2. -/
theorem claim_C1_deduct_walk_witness :
    ((c1State.entries.map (fun e => e.id)).Nodup ∧
      sortEntries (candidates c1State 1) = [c1E1] ++ c1E2 :: []) ∧
    (expiredB c1State.now c1E2.expiryDate = false →
      (deductFromDailyInventory 1 7 9 c1State).1.entries.find?
        (fun u => u.id == c1E2.id) =
        some { c1E2 with remainingQuantity := (c1E2.remainingQuantity -
          min c1E2.remainingQuantity (needAfter c1State.now 7 [c1E1])) }) :=
  ⟨⟨by decide, by decide⟩,
    (claim_C1_deduct_walk c1State 1 7 9 (by decide) [c1E1] [] c1E2
      (by decide)).2.2.2⟩

/-- Claim C4 (confirmed): when the usable (non-expired) candidate entries'
total remaining quantity is short of the requested quantity, the deduction
fails with the insufficient-stock error carrying the required and available
amounts, the StockItem registry (aggregate `currentStock`) is untouched,
and the per-entry decrements made during the walk are left in place: every
usable candidate entry ends at remaining quantity 0, not rolled back. -/
theorem claim_C4_insufficient (s : KState) (itemId qty uid : Nat)
    (hwf : (s.entries.map (fun e => e.id)).Nodup)
    (hshort : availSum s.now (candidates s itemId) < qty) :
    (deductFromDailyInventory itemId qty uid s).2 =
      some (ApiErr.insufficientStock qty
        (availSum s.now (candidates s itemId))) ∧
    (deductFromDailyInventory itemId qty uid s).1.items = s.items ∧
    (∀ e ∈ s.entries, candB s.today itemId e = true →
      expiredB s.now e.expiryDate = false →
      (deductFromDailyInventory itemId qty uid s).1.entries.find?
        (fun u => u.id == e.id) = some { e with remainingQuantity := 0 }) := by
  rcases deduct_insufficient_eq s itemId qty uid hshort with ⟨he, hi⟩
  refine ⟨he, hi, ?_⟩
  intro e he1 hc hx
  have hec : e ∈ candidates s itemId := List.mem_filter.2 ⟨he1, hc⟩
  have hes : e ∈ sortEntries (candidates s itemId) :=
    ((sortEntries_perm (candidates s itemId)).symm).subset hec
  rcases List.append_of_mem hes with ⟨L1, L2, hsplit⟩
  have hfind := deduct_split_find itemId qty uid hwf hsplit
  rw [if_neg (by simp [hx])] at hfind
  have havail : availSum s.now L1 + e.remainingQuantity ≤
      availSum s.now (candidates s itemId) := by
    have h1 : availSum s.now (sortEntries (candidates s itemId)) =
        availSum s.now (candidates s itemId) :=
      availSum_perm s.now (sortEntries_perm _)
    rw [← h1, hsplit, availSum_append, availSum_cons, hx]
    simp
  have hzero : e.remainingQuantity -
      min e.remainingQuantity (needAfter s.now qty L1) = 0 := by
    unfold needAfter
    omega
  rw [hfind, hzero]

/-- A single short batch for the claim C4 witness. -/
def c4Entry : DailyInventoryEntry :=
  { id := 1, date := 0, inventoryItem := 1, quantity := 2,
    remainingQuantity := 2, cost := none, expiryDate := none, createdAt := 1,
    addedBy := 1 }

/-- A state whose only candidate batch holds 2 units. -/
def c4State : KState :=
  { items := [], entries := [c4Entry], dayStatuses := [], orders := [],
    menuItems := [], wasteLogs := [], invLogs := [], sales := [],
    nextId := 2, now := 10, today := 0 }

/-- Witness for claim C4: demanding 5 of a 2-unit stock throws
`insufficientStock 5 2`, leaves the registry alone, and keeps the drained
entry at 0. -/
theorem claim_C4_insufficient_witness :
    ((c4State.entries.map (fun e => e.id)).Nodup ∧
      availSum c4State.now (candidates c4State 1) < 5) ∧
    ((deductFromDailyInventory 1 5 9 c4State).2 =
      some (ApiErr.insufficientStock 5
        (availSum c4State.now (candidates c4State 1))) ∧
    (deductFromDailyInventory 1 5 9 c4State).1.items = c4State.items ∧
    (∀ e ∈ c4State.entries, candB c4State.today 1 e = true →
      expiredB c4State.now e.expiryDate = false →
      (deductFromDailyInventory 1 5 9 c4State).1.entries.find?
        (fun u => u.id == e.id) = some { e with remainingQuantity := 0 })) :=
  ⟨⟨by decide, by decide⟩,
    claim_C4_insufficient c4State 1 5 9 (by decide) (by decide)⟩

/-- Trace for claim C3: register a dairy item with an expiry date. -/
def c3s1 : KState :=
  (addInventoryItem "milk" "ltr" "dairy" 0 (some 10) none 0 1 initState).1

/-- Trace for claim C3: stock 3 units of it into today's ledger. -/
def c3s2 : KState := (addItemToToday 1 3 none none 1 c3s1).1

/-- Trace for claim C3: the clock passes the expiry date. -/
def c3s3 : KState := { c3s2 with now := 20, today := 0 }

/-- Trace for claim C3: the cheap status sweep runs. -/
def c3Bad : KState := checkExpiredItems c3s3

/-- The stocked item of the C3 trace just before the sweep. -/
def c3Item : InventoryItem :=
  { id := 1, name := "milk", unit := "ltr", category := "dairy",
    currentStock := 3, quantity := 3, cost := none, expiryDate := some 10,
    status := ItemStatus.active, minThreshold := 0, lastUpdatedBy := some 1 }

/-- The same item after the cheap sweep: expired but still stocked. -/
def c3BadItem : InventoryItem := { c3Item with status := ItemStatus.expired }

/-- Claim C3 counterexample: the invariant `status = expired ⇒
currentStock = 0` fails on a reachable state — `checkExpiredItems` (the
cheap periodic sweep) flips `status` to `expired` without zeroing
`currentStock`, so after registering an item, stocking 3 units and letting
the expiry pass, the sweep leaves an expired item with stock 3. -/
theorem claim_C3_counterexample :
    ¬ (∀ s, Reachable s → ∀ it ∈ s.items,
        it.status = ItemStatus.expired → it.currentStock = 0) := by
  intro h
  have h1 : Step initState c3s1 :=
    Step.addItem initState "milk" "ltr" "dairy" 0 (some 10) none 0 1
  have h2 : Step c3s1 c3s2 := Step.addToday c3s1 1 3 none none 1
  have h3 : Step c3s2 c3s3 := Step.tick c3s2 20 0 (by decide) (by decide)
  have h4 : Step c3s3 c3Bad := Step.mark c3s3
  have hreach : Reachable c3Bad :=
    Relation.ReflTransGen.tail (Relation.ReflTransGen.tail
      (Relation.ReflTransGen.tail (Relation.ReflTransGen.single h1) h2) h3) h4
  have hmem : c3BadItem ∈ c3Bad.items := by decide
  have hzero := h c3Bad hreach c3BadItem hmem (by decide)
  exact absurd hzero (by decide)

/-- Claim C3 (amended): the invariant `status = expired ⇒ currentStock = 0`
is NOT maintained by every operation (`checkExpiredItems` only flips the
status), but the full waste sweep `processExpiredItems` does establish it
for every item it selects: each stocked, non-discontinued item whose expiry
has passed is rewritten with `currentStock = 0`, `quantity = 0` and
`status = expired`. -/
theorem claim_C3_amended (uid : Option Nat) (s : KState)
    (hwf : (s.items.map (fun it => it.id)).Nodup) :
    ∀ it ∈ s.items, expiredSel s.now it = true →
      findItem (processExpiredItems uid s).1 it.id =
        some (expireUpd uid it) := by
  intro it hit hsel
  have hmem : it ∈ s.items.filter (expiredSel s.now) :=
    List.mem_filter.2 ⟨hit, hsel⟩
  have hsub : ((s.items.filter (expiredSel s.now)).map (fun x => x.id)).Sublist
      (s.items.map (fun x => x.id)) :=
    List.Sublist.map (fun x => x.id) (List.filter_sublist s.items)
  have hnd := List.Nodup.sublist hsub hwf
  have hfind : ∀ x ∈ s.items.filter (expiredSel s.now),
      findItem s x.id = some x := by
    intro x hx
    exact find?_self_of_nodup hwf (List.mem_filter.1 hx).1
  have h := processExpired_fold uid s.now
    (s.items.filter (expiredSel s.now)) s 0 0 rfl hnd hfind
  exact h.2.2.2.1 it hmem

/-- Witness for the amended claim C3 on the trace state: the full sweep
zeroes the expired milk and marks it expired. -/
theorem claim_C3_amended_witness :
    ((c3s3.items.map (fun it => it.id)).Nodup ∧
      c3Item ∈ c3s3.items ∧ expiredSel c3s3.now c3Item = true) ∧
    findItem (processExpiredItems (some 9) c3s3).1 c3Item.id =
      some (expireUpd (some 9) c3Item) :=
  ⟨⟨by decide, by decide, by decide⟩,
    claim_C3_amended (some 9) c3s3 (by decide) c3Item (by decide) (by decide)⟩

/-- Claim C8 (confirmed): the waste sweep selects exactly the items with a
past expiry, positive stock and a non-discontinued status; the processed
count is the number of selected items, the total waste cost sums
`currentStock × cost` (0 when cost is unknown), one waste record per
selected item is appended carrying the item's full `currentStock` as
quantity, every selected item ends zeroed and expired, and every
non-selected item is untouched. -/
theorem claim_C8_sweep (uid : Option Nat) (s : KState)
    (hwf : (s.items.map (fun it => it.id)).Nodup) :
    (processExpiredItems uid s).2.1 =
      (s.items.filter (expiredSel s.now)).length ∧
    (processExpiredItems uid s).2.2 =
      ((s.items.filter (expiredSel s.now)).map wasteCostOf).sum ∧
    (processExpiredItems uid s).1.wasteLogs =
      s.wasteLogs ++ (s.items.filter (expiredSel s.now)).map (wasteOfAt s.now) ∧
    (∀ it ∈ s.items, expiredSel s.now it = true →
      findItem (processExpiredItems uid s).1 it.id = some (expireUpd uid it)) ∧
    (∀ it ∈ s.items, expiredSel s.now it = false →
      findItem (processExpiredItems uid s).1 it.id = some it) := by
  have hsub : ((s.items.filter (expiredSel s.now)).map (fun x => x.id)).Sublist
      (s.items.map (fun x => x.id)) :=
    List.Sublist.map (fun x => x.id) (List.filter_sublist s.items)
  have hnd := List.Nodup.sublist hsub hwf
  have hfind : ∀ x ∈ s.items.filter (expiredSel s.now),
      findItem s x.id = some x := by
    intro x hx
    exact find?_self_of_nodup hwf (List.mem_filter.1 hx).1
  have h := processExpired_fold uid s.now
    (s.items.filter (expiredSel s.now)) s 0 0 rfl hnd hfind
  refine ⟨by simpa using h.1, by simpa using h.2.1, h.2.2.1, ?_, ?_⟩
  · intro it hit hsel
    exact h.2.2.2.1 it (List.mem_filter.2 ⟨hit, hsel⟩)
  · intro it hit hsel
    have hne : ∀ x ∈ s.items.filter (expiredSel s.now), x.id ≠ it.id := by
      intro x hx hcontra
      have hx1 := List.mem_filter.1 hx
      have hfx := find?_self_of_nodup hwf hx1.1
      have hfi := find?_self_of_nodup hwf hit
      rw [hcontra] at hfx
      have hxi : x = it := by
        have := hfx.symm.trans hfi
        exact Option.some.inj this
      rw [hxi] at hx1
      rw [hx1.2] at hsel
      cases hsel
    exact (h.2.2.2.2.1 it.id hne).trans (find?_self_of_nodup hwf hit)

/-- The spec's worked example item for claim C8: stock 4, unit cost 2,
expired yesterday. -/
def c8Item : InventoryItem :=
  { id := 1, name := "egg", unit := "pcs", category := "dairy",
    currentStock := 4, quantity := 4, cost := some 2, expiryDate := some 5,
    status := ItemStatus.active, minThreshold := 0, lastUpdatedBy := none }

/-- A state holding only that item, with the clock past its expiry. -/
def c8State : KState :=
  { items := [c8Item], entries := [], dayStatuses := [], orders := [],
    menuItems := [], wasteLogs := [], invLogs := [], sales := [],
    nextId := 2, now := 10, today := 0 }

/-- Witness for claim C8 on the spec's example: one selected item, so the
count is 1, the total waste cost `4 × 2 = 8`, and one waste record of
quantity 4 is created. -/
theorem claim_C8_sweep_witness :
    (c8State.items.map (fun it => it.id)).Nodup ∧
    ((processExpiredItems (some 9) c8State).2.1 =
      (c8State.items.filter (expiredSel c8State.now)).length ∧
    (processExpiredItems (some 9) c8State).2.2 =
      ((c8State.items.filter (expiredSel c8State.now)).map wasteCostOf).sum ∧
    (processExpiredItems (some 9) c8State).1.wasteLogs =
      c8State.wasteLogs ++
        (c8State.items.filter (expiredSel c8State.now)).map
          (wasteOfAt c8State.now) ∧
    (∀ it ∈ c8State.items, expiredSel c8State.now it = true →
      findItem (processExpiredItems (some 9) c8State).1 it.id =
        some (expireUpd (some 9) it)) ∧
    (∀ it ∈ c8State.items, expiredSel c8State.now it = false →
      findItem (processExpiredItems (some 9) c8State).1 it.id = some it)) :=
  ⟨by decide, claim_C8_sweep (some 9) c8State (by decide)⟩

/-- Claim C5 (confirmed): when any requested line's menu item resolves but
its ingredient-availability check fails, `createOrder` aborts with an error
and the state is returned UNCHANGED — no order is persisted and no stock or
ledger mutation happens, because all phase-1 validations run before any
write. -/
theorem claim_C5_abort (s : KState) (name otype : String)
    (req : List ReqOrderItem) (uid : Nat)
    (hfail : ∃ it ∈ req, ∃ m, findMenu s it.menuItem = some m ∧
      (checkIngredientAvailability m.ingredients it.quantity s).isAvailable =
        false) :
    ∃ e, createOrder name otype req uid s = (s, some e) := by
  unfold createOrder
  by_cases hg : (decide (name = "") || req.isEmpty) = true
  · rw [if_pos hg]
    exact ⟨ApiErr.validation 400, rfl⟩
  · rw [if_neg hg]
    rcases validateOrderItems_fails hfail with ⟨e, he⟩
    rw [he]
    exact ⟨e, rfl⟩

/-- An out-of-stock ingredient for the claim C5 witness. -/
def c5Item : InventoryItem :=
  { id := 1, name := "flour", unit := "kg", category := "baking",
    currentStock := 0, quantity := 0, cost := none, expiryDate := none,
    status := ItemStatus.active, minThreshold := 0, lastUpdatedBy := none }

/-- A dish needing 2 units of the out-of-stock ingredient. -/
def c5Menu : MenuItem :=
  { id := 7, name := "bread", ingredients := [⟨1, 2, "kg"⟩] }

/-- An order line requesting one such dish. -/
def c5Req : ReqOrderItem := { menuItem := 7, quantity := 1, unitPrice := 10 }

/-- A state holding the empty ingredient and the dish. -/
def c5State : KState :=
  { items := [c5Item], entries := [], dayStatuses := [], orders := [],
    menuItems := [c5Menu], wasteLogs := [], invLogs := [], sales := [],
    nextId := 10, now := 0, today := 0 }

/-- Witness for claim C5: ordering the bread whose flour is out of stock
aborts with some error and leaves the state untouched. -/
theorem claim_C5_abort_witness :
    (∃ it ∈ [c5Req], ∃ m, findMenu c5State it.menuItem = some m ∧
      (checkIngredientAvailability m.ingredients it.quantity
        c5State).isAvailable = false) ∧
    ∃ e, createOrder "Ann" "dine-in" [c5Req] 1 c5State = (c5State, some e) :=
  ⟨⟨c5Req, by decide, c5Menu, by decide, by decide⟩,
    claim_C5_abort c5State "Ann" "dine-in" [c5Req] 1
      ⟨c5Req, by decide, c5Menu, by decide, by decide⟩⟩

/-- An ingredient with aggregate stock 5 for the claim C6 trace. -/
def c6Item : InventoryItem :=
  { id := 1, name := "sugar", unit := "kg", category := "baking",
    currentStock := 5, quantity := 5, cost := none, expiryDate := none,
    status := ItemStatus.active, minThreshold := 0, lastUpdatedBy := none }

/-- A dish consuming 1 unit of it per serving. -/
def c6Menu : MenuItem :=
  { id := 7, name := "cake", ingredients := [⟨1, 1, "kg"⟩] }

/-- An order line for one serving. -/
def c6Req : ReqOrderItem := { menuItem := 7, quantity := 1, unitPrice := 10 }

/-- A state with aggregate stock but an EMPTY daily ledger, so the phase-3
deduction of `createOrder` throws (and is swallowed per line). -/
def c6State : KState :=
  { items := [c6Item], entries := [], dayStatuses := [], orders := [],
    menuItems := [c6Menu], wasteLogs := [], invLogs := [], sales := [],
    nextId := 10, now := 0, today := 0 }

/-- Claim C6 counterexample: with an empty daily ledger the phase-3
deduction of `createOrder` fails and is swallowed, so the order is created
as `pending` WITHOUT any stock having been deducted (stock stays 5); the
immediate cancellation then restores `1 × 1` anyway, leaving aggregate
stock 6 ≠ 5 — cancellation does not return stock to its pre-order value. -/
theorem claim_C6_counterexample :
    (createOrder "A" "dine-in" [c6Req] 1 c6State).2 = none ∧
    ((findOrder (createOrder "A" "dine-in" [c6Req] 1 c6State).1 10).map
      (fun o => o.status)) = some OrderStatus.pending ∧
    stockOf c6State 1 = 5 ∧
    stockOf (updateOrderStatus 10 "cancelled" 2
      (createOrder "A" "dine-in" [c6Req] 1 c6State).1).1 1 = 6 := by
  decide

/-- Claim C6 (amended): the cancellation round-trip holds under the extra
hypothesis that the phase-3 deduction completed without a swallowed error
(`hesc`).  Then `createOrder` succeeds, aggregate stock drops by exactly the
summed `perUnitQuantity × lineQuantity` of each resolved, present ingredient
of each line, the order is persisted `pending` under the fresh id, and an
immediate cancellation restores every stock to its pre-order value.  Without
`hesc` the restoration can exceed what was deducted (see the trace where the
ledger deduction failed). -/
theorem claim_C6_cancel_roundtrip (s : KState) (name otype : String)
    (req : List ReqOrderItem) (v : List OrderItem) (sub uid uid2 : Nat)
    (hname : (decide (name = "") || req.isEmpty) = false)
    (hv : validateOrderItems s req = Except.ok (v, sub))
    (hfresh : ∀ o ∈ s.orders, o.id ≠ s.nextId)
    (hesc : (processOrderItemsDeduct uid req
      (addOrderState name otype v sub uid s)).2 = false) :
    (createOrder name otype req uid s).2 = none ∧
    (∀ id, stockOf (createOrder name otype req uid s).1 id =
      stockOf s id - (linesRequirement s.menuItems (presentB s) id
        (req.map (fun x => (x.menuItem, x.quantity))) : Int)) ∧
    findOrder (createOrder name otype req uid s).1 s.nextId =
      some (mkOrder s.nextId name otype v sub uid) ∧
    (∀ id, stockOf (updateOrderStatus s.nextId "cancelled" uid2
      (createOrder name otype req uid s).1).1 id = stockOf s id) := by
  have hcr : createOrder name otype req uid s =
      ((processOrderItemsDeduct uid req
        (addOrderState name otype v sub uid s)).1, none) := by
    unfold createOrder
    rw [if_neg (by simp [hname])]
    rw [hv]
  rcases processOrderItemsDeduct_spec uid req
      (addOrderState name otype v sub uid s) hesc with ⟨h1, h2, h3⟩
  have h1s : ∀ id, stockOf (processOrderItemsDeduct uid req
      (addOrderState name otype v sub uid s)).1 id =
      stockOf s id - (linesRequirement s.menuItems (presentB s) id
        (req.map (fun x => (x.menuItem, x.quantity))) : Int) :=
    fun id => h1 id
  have h2s : ∀ id, presentB (processOrderItemsDeduct uid req
      (addOrderState name otype v sub uid s)).1 id = presentB s id :=
    fun id => h2 id
  have h3s : (processOrderItemsDeduct uid req
      (addOrderState name otype v sub uid s)).1.menuItems = s.menuItems := h3
  have hford : findOrder (processOrderItemsDeduct uid req
      (addOrderState name otype v sub uid s)).1 s.nextId =
      some (mkOrder s.nextId name otype v sub uid) := by
    rw [findOrder_of_orders_eq (pod_orders uid req
      (addOrderState name otype v sub uid s)) s.nextId]
    exact findOrder_addOrderState name otype v sub uid s hfresh
  refine ⟨by rw [hcr], ?_, ?_, ?_⟩
  · intro id
    rw [hcr]
    exact h1s id
  · rw [hcr]
    exact hford
  · intro id
    rw [hcr]
    have hcanc := updateOrderStatus_cancel s.nextId uid2
      (processOrderItemsDeduct uid req (addOrderState name otype v sub uid s)).1
      (mkOrder s.nextId name otype v sub uid) hford (by simp [mkOrder])
    dsimp only
    rw [hcanc]
    dsimp only
    rw [stockOf_setOrderStatus]
    have hrest := (restoreOrderStock_fold uid2 v
      (processOrderItemsDeduct uid req (addOrderState name otype v sub uid s)).1).1 id
    rw [h3s] at hrest
    rw [funext h2s] at hrest
    rw [validateOrderItems_proj s req v sub hv] at hrest
    rw [h1s id] at hrest
    have hgoal : stockOf (List.foldl (restoreLineStep uid2)
        (processOrderItemsDeduct uid req
          (addOrderState name otype v sub uid s)).1 v) id = stockOf s id := by
      rw [hrest]
      ring
    exact hgoal

/-- A daily ledger batch making the C6 witness deduction succeed. -/
def c6okEntry : DailyInventoryEntry :=
  { id := 1, date := 0, inventoryItem := 1, quantity := 10,
    remainingQuantity := 10, cost := none, expiryDate := none, createdAt := 0,
    addedBy := 1 }

/-- The C6 state with a stocked ledger, so phase 3 swallows nothing. -/
def c6okState : KState :=
  { items := [c6Item], entries := [c6okEntry], dayStatuses := [], orders := [],
    menuItems := [c6Menu], wasteLogs := [], invLogs := [], sales := [],
    nextId := 10, now := 0, today := 0 }

/-- The validated line `createOrder` persists in the C6 witness. -/
def c6V : List OrderItem :=
  [{ menuItem := 7, quantity := 1, unitPrice := 10, totalPrice := 10 }]

/-- Witness for the amended claim C6: with the ledger stocked, creating the
one-cake order and cancelling it restores every aggregate stock to its
pre-order value. -/
theorem claim_C6_cancel_roundtrip_witness :
    ((decide ("A" = "") || [c6Req].isEmpty) = false ∧
      validateOrderItems c6okState [c6Req] = Except.ok (c6V, 10) ∧
      (∀ o ∈ c6okState.orders, o.id ≠ c6okState.nextId) ∧
      (processOrderItemsDeduct 1 [c6Req]
        (addOrderState "A" "dine-in" c6V 10 1 c6okState)).2 = false) ∧
    ((createOrder "A" "dine-in" [c6Req] 1 c6okState).2 = none ∧
    (∀ id, stockOf (createOrder "A" "dine-in" [c6Req] 1 c6okState).1 id =
      stockOf c6okState id -
        (linesRequirement c6okState.menuItems (presentB c6okState) id
          ([c6Req].map (fun x => (x.menuItem, x.quantity))) : Int)) ∧
    findOrder (createOrder "A" "dine-in" [c6Req] 1 c6okState).1
        c6okState.nextId =
      some (mkOrder c6okState.nextId "A" "dine-in" c6V 10 1) ∧
    (∀ id, stockOf (updateOrderStatus c6okState.nextId "cancelled" 2
      (createOrder "A" "dine-in" [c6Req] 1 c6okState).1).1 id =
        stockOf c6okState id)) :=
  ⟨⟨by decide, by rfl, by decide, by rfl⟩,
    claim_C6_cancel_roundtrip c6okState "A" "dine-in" [c6Req] c6V 10 1 2
      (by decide) (by rfl) (by decide) (by rfl)⟩

/-- The state a successful `startNewDay` leaves behind (its closed form). -/
def afterStart (uid : Nat) (s : KState) : KState :=
  { s with entries := s.entries ++ carriedForwardEntries s uid,
           nextId := s.nextId + (carriedForwardEntries s uid).length }

theorem carried_afterStart (uid1 uid2 : Nat) (s : KState)
    (htoday : 0 < s.today) :
    carriedForwardEntries (afterStart uid1 s) uid2 =
      carryFrom s.today s.now uid2 (afterStart uid1 s).nextId
        ((s.entries.filter (fun e => decide (e.date = s.today - 1) &&
            decide (0 < e.remainingQuantity))).filter
          (fun e => !expiredB s.now e.expiryDate)) := by
  show carryFrom s.today s.now uid2 (afterStart uid1 s).nextId
      (((s.entries ++ carriedForwardEntries s uid1).filter
          (fun e => decide (e.date = s.today - 1) &&
            decide (0 < e.remainingQuantity))).filter
        (fun e => !expiredB s.now e.expiryDate)) = _
  rw [List.filter_append]
  rw [show (carriedForwardEntries s uid1).filter
      (fun e => decide (e.date = s.today - 1) &&
        decide (0 < e.remainingQuantity)) = [] from
    carryFrom_filter_ne s.today s.now uid1 (s.today - 1) (by omega) _ _]
  rw [List.append_nil]

/-- Claim C10 (confirmed): `startNewDay` never checks whether the
carry-forward already ran today.  Whenever yesterday is ended and today is
not, TWO consecutive `startNewDay` calls both succeed, and today's ledger
quantity of every item ends at its original value plus TWICE the
carry-forward amount — the operation is not idempotent. -/
theorem claim_C10_not_idempotent (s : KState) (uid1 uid2 : Nat)
    (htoday : 0 < s.today)
    (ht : dayEnded s s.today = false)
    (hy : dayEnded s (s.today - 1) = true) :
    (startNewDay uid1 s).2 = none ∧
    (startNewDay uid2 (startNewDay uid1 s).1).2 = none ∧
    ∀ itemId, todaySum (startNewDay uid2 (startNewDay uid1 s).1).1 itemId =
      todaySum s itemId + 2 * carrySum s itemId := by
  have h1 : startNewDay uid1 s = (afterStart uid1 s, none) := by
    rw [startNewDay_eq]
    rw [if_neg (by simp [ht]), if_neg (by simp [hy])]
    rfl
  have h2cond1 : ¬ (dayEnded (afterStart uid1 s)
      (afterStart uid1 s).today = true) := by
    show ¬ (dayEnded s s.today = true)
    simp [ht]
  have h2cond2 : ¬ (dayEnded (afterStart uid1 s)
      ((afterStart uid1 s).today - 1) = false) := by
    show ¬ (dayEnded s (s.today - 1) = false)
    simp [hy]
  have h2 : startNewDay uid2 (afterStart uid1 s) =
      ({ afterStart uid1 s with
          entries := (afterStart uid1 s).entries ++
            carriedForwardEntries (afterStart uid1 s) uid2,
          nextId := (afterStart uid1 s).nextId +
            (carriedForwardEntries (afterStart uid1 s) uid2).length },
        none) := by
    rw [startNewDay_eq]
    rw [if_neg h2cond1, if_neg h2cond2]
  refine ⟨by rw [h1], ?_, ?_⟩
  · rw [h1]
    dsimp only
    rw [h2]
  · intro itemId
    rw [h1]
    dsimp only
    rw [h2]
    dsimp only
    show todaySumL s.today itemId
        ((s.entries ++ carriedForwardEntries s uid1) ++
          carriedForwardEntries (afterStart uid1 s) uid2) =
      todaySum s itemId + 2 * carrySum s itemId
    rw [todaySumL_append, todaySumL_append]
    have hA : todaySumL s.today itemId s.entries = todaySum s itemId := rfl
    have hB : todaySumL s.today itemId (carriedForwardEntries s uid1) =
        carrySum s itemId :=
      carryFrom_todaySum s.today s.now uid1 itemId s.nextId _
    have hC : todaySumL s.today itemId
        (carriedForwardEntries (afterStart uid1 s) uid2) =
        carrySum s itemId := by
      rw [carried_afterStart uid1 uid2 s htoday]
      exact carryFrom_todaySum s.today s.now uid2 itemId _ _
    rw [hA, hB, hC]
    omega

/-- Yesterday's leftover batch for the claim C10 witness. -/
def c10Entry : DailyInventoryEntry :=
  { id := 1, date := 0, inventoryItem := 1, quantity := 4,
    remainingQuantity := 4, cost := none, expiryDate := none, createdAt := 0,
    addedBy := 1 }

/-- A state on day 1 with day 0 ended and 4 units left over from day 0. -/
def c10State : KState :=
  { items := [], entries := [c10Entry],
    dayStatuses := [{ date := 0, isEnded := true, endedAt := some 5,
                      endedBy := some 1 }],
    orders := [], menuItems := [], wasteLogs := [], invLogs := [], sales := [],
    nextId := 2, now := 10, today := 1 }

/-- Witness for claim C10: both consecutive `startNewDay` calls succeed and
item 1's today quantity ends at `0 + 2 × 4 = 8` — the leftover was carried
forward twice. -/
theorem claim_C10_not_idempotent_witness :
    (0 < c10State.today ∧ dayEnded c10State c10State.today = false ∧
      dayEnded c10State (c10State.today - 1) = true) ∧
    (startNewDay 1 c10State).2 = none ∧
    (startNewDay 2 (startNewDay 1 c10State).1).2 = none ∧
    todaySum (startNewDay 2 (startNewDay 1 c10State).1).1 1 =
      todaySum c10State 1 + 2 * carrySum c10State 1 :=
  ⟨⟨by decide, by decide, by decide⟩,
    (claim_C10_not_idempotent c10State 1 2
      (by decide) (by decide) (by decide)).1,
    (claim_C10_not_idempotent c10State 1 2
      (by decide) (by decide) (by decide)).2.1,
    (claim_C10_not_idempotent c10State 1 2
      (by decide) (by decide) (by decide)).2.2 1⟩
